import Mathlib

/-! # Distributed map/reduce: master orchestrator and worker executor

A shallow embedding of `master-server.js` (`makeMaster`) and `worker.js`
(`makeWorker`).  Closure variables of the two factories become fields of an
explicit state record, `for` loops that push onto an array become folds that
append, and every point where the JavaScript awaits the network becomes an
event carrying what the network answered.
-/

namespace MapReduce

/-! ## JavaScript values used by the two files -/

/-- Template-literal rendering of a number read out of an array, as in
`${MAP_PORTS[i]}`: an index past the end reads `undefined`, which a template
literal renders as the text `undefined`. -/
def renderIndexed : Option Nat → String
  | some n => toString n
  | none => "undefined"

/-- Characters of a path after its last `/`, with `acc` the reversed segment
read so far. -/
def lastSegmentAux : List Char → List Char → List Char
  | [], acc => acc.reverse
  | c :: cs, acc => if c = '/' then lastSegmentAux cs [] else lastSegmentAux cs (c :: acc)

/-- The expression `s.split("/").pop()`: the text after the last `/` of `s`. -/
def splitPop (s : String) : String :=
  String.mk (lastSegmentAux s.data [])

/-- The value of a decimal digit character. -/
def digitValue (c : Char) : Nat :=
  c.toNat - 48

/-- The number a list of decimal digit characters reads as. -/
def decimalValue (ds : List Char) : Nat :=
  ds.foldl (fun a c => 10 * a + digitValue c) 0

/-! ## config.js -/

/-- The `STATES` table of `config.js`: one status token per name.  The file is
not part of the sources at hand, so the tokens are taken as a parameter. -/
structure States where
  WORKER_IDLE : String
  WORKER_RUNNING : String
  MAP_PHASE : String
  REDUCE_PHASE : String
  MAP_RUNNING : String
  MAP_COMPLETED : String
  MAP_ERROR : String
  REDUCE_RUNNING : String
  REDUCE_COMPLETED : String
  REDUCE_ERROR : String
  deriving Repr, DecidableEq

/-- The values `master-server.js` destructures from `config.js`. -/
structure Config where
  NUM_REDUCERS : Nat
  REDUCE_PORTS : List Nat
  MAP_PORTS : List Nat
  BASE_URL : String
  FILE_PARTS_DIR : String
  STATES : States
  deriving Repr, DecidableEq

/-- Modelled from the spec: the `STATES` table of `config.js`, each token being
the text of its own name (section 6 lists the worker tokens, section 3 the job
phases). -/
def specStates : States where
  WORKER_IDLE := "WORKER_IDLE"
  WORKER_RUNNING := "WORKER_RUNNING"
  MAP_PHASE := "MAP_PHASE"
  REDUCE_PHASE := "REDUCE_PHASE"
  MAP_RUNNING := "MAP_RUNNING"
  MAP_COMPLETED := "MAP_COMPLETED"
  MAP_ERROR := "MAP_ERROR"
  REDUCE_RUNNING := "REDUCE_RUNNING"
  REDUCE_COMPLETED := "REDUCE_COMPLETED"
  REDUCE_ERROR := "REDUCE_ERROR"

/-- The tokens a worker answers with while a task is not completed differ from
the two COMPLETED tokens. -/
def States.WorkerTokensDistinct (S : States) : Prop :=
  ∀ s ∈ [S.WORKER_IDLE, S.WORKER_RUNNING, S.MAP_RUNNING, S.MAP_ERROR,
      S.REDUCE_RUNNING, S.REDUCE_ERROR],
    s ≠ S.MAP_COMPLETED ∧ s ≠ S.REDUCE_COMPLETED

instance (S : States) : Decidable S.WorkerTokensDistinct := by
  unfold States.WorkerTokensDistinct; infer_instance

/-- The four values the master's `status` variable takes are pairwise
different tokens. -/
def States.PhasesDistinct (S : States) : Prop :=
  [S.WORKER_IDLE, S.MAP_PHASE, S.REDUCE_PHASE, S.REDUCE_COMPLETED].Nodup

instance (S : States) : Decidable S.PhasesDistinct := by
  unfold States.PhasesDistinct; infer_instance

/-! ## master-server.js -/

/-- The `workerPayload` of a task: the body posted to a worker's `/task`. -/
inductive WorkerPayload where
  | map (inputFilePath mapperFilePath : String) (numReducers : Nat)
  | reduce (fileLocations : List (Option String)) (reducerFilePath outputFilePath : String)
  deriving Repr, DecidableEq

/-- The `taskType` field of a payload. -/
def WorkerPayload.taskType : WorkerPayload → String
  | .map _ _ _ => "map"
  | .reduce _ _ _ => "reduce"

/-- The `outputFilePath` field of a payload (`undefined` on a map payload). -/
def WorkerPayload.outputFilePath : WorkerPayload → Option String
  | .map _ _ _ => none
  | .reduce _ _ out => some out

/-- A task object as built by `createMapTasks` and `createReduceTasks`; only map
tasks carry a `fileLocationsURL`. -/
structure Task where
  workerPayload : WorkerPayload
  workerURL : String
  statusURL : String
  fileLocationsURL : Option String
  deriving Repr, DecidableEq

/-- The loop of `pingTasks` over the resolved responses: `false` at the first
status that is neither `MAP_COMPLETED` nor `REDUCE_COMPLETED`, `true` when the
loop runs to its end. -/
def pingLoop (S : States) : List String → Bool
  | [] => true
  | s :: rest =>
    if s ≠ S.MAP_COMPLETED ∧ s ≠ S.REDUCE_COMPLETED then false else pingLoop S rest

/-- The first loop of `pingTasks` and the `await` after it: one request per
task, to the task's `statusURL`, from call index `i` on.  `axiosGet i url` is the
`data.status` field of the response to the `i`-th call, sent to `url`. -/
def pingResponses (axiosGet : Nat → String → String) : Nat → List Task → List String
  | _, [] => []
  | i, task :: rest => axiosGet i task.statusURL :: pingResponses axiosGet (i + 1) rest

/-- The function `pingTasks(tasks)`, with `axiosGet` what the workers answer. -/
def pingTasks (S : States) (tasks : List Task) (axiosGet : Nat → String → String) : Bool :=
  pingLoop S (pingResponses axiosGet 0 tasks)

/-- The two phases whose tasks the master polls. -/
inductive Phase where
  | map
  | reduce
  deriving Repr, DecidableEq

/-- The COMPLETED token of a phase. -/
def Phase.completed (S : States) : Phase → String
  | .map => S.MAP_COMPLETED
  | .reduce => S.REDUCE_COMPLETED

/-- The values `worker.js` assigns to the variable a phase's status endpoint
reports: `map_status` for `/map-status`, `reduce_status` for `/reduce-status`. -/
def Phase.statusTokens (S : States) : Phase → List String
  | .map => [S.WORKER_IDLE, S.MAP_RUNNING, S.MAP_COMPLETED, S.MAP_ERROR]
  | .reduce => [S.WORKER_IDLE, S.REDUCE_RUNNING, S.REDUCE_COMPLETED, S.REDUCE_ERROR]

/-- Template-literal rendering of a text read out of an array, as in
`${filenames[i]}`. -/
def renderText : Option String → String
  | some s => s
  | none => "undefined"

/-- The task object built by one iteration of the loop of `createMapTasks`. -/
def mapTask (cfg : Config) (filenames : List String) (mapperFileName : String) (i : Nat) :
    Task where
  workerPayload :=
    .map ("./" ++ cfg.FILE_PARTS_DIR ++ "/" ++ renderText filenames[i]?)
      ("./public/" ++ mapperFileName) cfg.NUM_REDUCERS
  workerURL := cfg.BASE_URL ++ ":" ++ renderIndexed cfg.MAP_PORTS[i]? ++ "/task"
  statusURL := cfg.BASE_URL ++ ":" ++ renderIndexed cfg.MAP_PORTS[i]? ++ "/map-status"
  fileLocationsURL := some (cfg.BASE_URL ++ ":" ++ renderIndexed cfg.MAP_PORTS[i]? ++ "/redis-locations")

/-- The inner loop of `createReduceTasks` for partition `j`: entry `[i][j]` of
the matrix for every row `i`, pushed in row order.  A row shorter than `j + 1`
reads `undefined`. -/
def filesForReducer (fileLocations : List (List String)) (j : Nat) : List (Option String) :=
  (List.range fileLocations.length).foldl
    (fun acc i => acc ++ [(fileLocations[i]?).bind (fun row => row[j]?)]) []

/-- The task object built by one iteration of the outer loop of
`createReduceTasks`. -/
def reduceTask (cfg : Config) (fileLocations : List (List String)) (reducerFileName : String)
    (j : Nat) : Task where
  workerPayload :=
    .reduce (filesForReducer fileLocations j) ("./public/" ++ reducerFileName)
      ("./public/output-" ++ toString j ++ ".json")
  workerURL := cfg.BASE_URL ++ ":" ++ renderIndexed cfg.REDUCE_PORTS[j]? ++ "/task"
  statusURL := cfg.BASE_URL ++ ":" ++ renderIndexed cfg.REDUCE_PORTS[j]? ++ "/reduce-status"
  fileLocationsURL := none

/-- Where one activation of `runMapReduce` is suspended.  A pending request
remembers the tasks it was issued for: the calls are built from the array as it
is when `pingTasks` or `getAllFileLocations` is called. -/
inductive Pc where
  /-- In the first `while` loop, `await pingTasks(map_tasks)` pending. -/
  | mapPoll (polled : List Task)
  /-- In the first `while` loop, in the 5 s pause after a poll that was not
  successful. -/
  | mapWait
  /-- Inside `createReduceTasks`, `await getAllFileLocations()` pending. -/
  | fileLocations (asked : List Task)
  /-- In the second `while` loop, `await pingTasks(reduce_tasks)` pending. -/
  | reducePoll (polled : List Task)
  /-- In the second `while` loop, in the 5 s pause. -/
  | reduceWait
  /-- After the second loop. -/
  | finished
  deriving Repr, DecidableEq

/-- Whether an activation has run the loop of `createReduceTasks`. -/
def Pc.createdReduceTasks : Pc → Bool
  | .reducePoll _ => true
  | .reduceWait => true
  | .finished => true
  | _ => false

/-- The value an activation has last assigned to `status`. -/
def Pc.status (S : States) : Pc → String
  | .mapPoll _ => S.MAP_PHASE
  | .mapWait => S.MAP_PHASE
  | .fileLocations _ => S.REDUCE_PHASE
  | .reducePoll _ => S.REDUCE_PHASE
  | .reduceWait => S.REDUCE_PHASE
  | .finished => S.REDUCE_COMPLETED

/-- One activation of `runMapReduce`: where it is suspended and the reducer
file name it was called with. -/
structure Run where
  pc : Pc
  reducerFileName : String
  deriving Repr, DecidableEq

/-- The closure state of `makeMaster`: `status`, `map_tasks`, `reduce_tasks`,
and the activations of `runMapReduce` started so far, in submission order. -/
structure Master where
  status : String
  map_tasks : List Task
  reduce_tasks : List Task
  runs : List Run
  deriving Repr, DecidableEq

/-- The state right after `makeMaster(PORT, filenames)`. -/
def makeMaster (cfg : Config) : Master where
  status := cfg.STATES.WORKER_IDLE
  map_tasks := []
  reduce_tasks := []
  runs := []

/-- The function `getAllFileLocations()`: `results` holds the `data.keys` field
of the resolved responses, one per map task; each is pushed in order. -/
def getAllFileLocations (results : List (List String)) : List (List String) :=
  results.foldl (fun fileLocations keys => fileLocations ++ [keys]) []

/-- The function `createReduceTasks(reducerFileName)`, with `results` what the map
workers answered to `getAllFileLocations`. -/
def createReduceTasks (cfg : Config) (M : Master) (results : List (List String))
    (reducerFileName : String) : Master :=
  let fileLocations := getAllFileLocations results
  { M with
    reduce_tasks :=
      (List.range cfg.NUM_REDUCERS).foldl
        (fun reduce_tasks j => reduce_tasks ++ [reduceTask cfg fileLocations reducerFileName j])
        M.reduce_tasks }

/-- The function `createMapTasks(mapperFileName)`. -/
def createMapTasks (cfg : Config) (filenames : List String) (M : Master)
    (mapperFileName : String) : Master :=
  { M with
    map_tasks :=
      (List.range filenames.length).foldl
        (fun map_tasks i => map_tasks ++ [mapTask cfg filenames mapperFileName i])
        M.map_tasks }

/-- The loop of the `/status` handler over `reduce_tasks`; `none` when a task has
no `outputFilePath` (the handler would throw on `undefined.split`). -/
def outputFilesLoop (cfg : Config) (PORT : Nat) : List Task → Option (List String)
  | [] => some []
  | task :: rest =>
    match task.workerPayload.outputFilePath, outputFilesLoop cfg PORT rest with
    | some p, some more =>
      some ((cfg.BASE_URL ++ ":" ++ toString PORT ++ "/" ++ splitPop p) :: more)
    | _, _ => none

/-- The `GET /status` handler: the pair `(status, outputFiles)` of the response
body. -/
def statusHandler (cfg : Config) (PORT : Nat) (M : Master) : Option (String × List String) :=
  if M.status = cfg.STATES.REDUCE_COMPLETED then
    (outputFilesLoop cfg PORT M.reduce_tasks).map (fun outputFiles => (M.status, outputFiles))
  else
    some (M.status, [])

/-- What happens to the master between two suspension points. -/
inductive Event where
  /-- A `POST /map-reduce` request arrives. -/
  | submit (mapperFileName reducerFileName : String)
  /-- The pending `await pingTasks(map_tasks)` of activation `k` resolves, the
  workers having answered `axiosGet`. -/
  | mapPolled (k : Nat) (axiosGet : Nat → String → String)
  /-- The 5 s pause of activation `k` ends. -/
  | timerFired (k : Nat)
  /-- The pending `await getAllFileLocations()` of activation `k` resolves with
  the key lists `results`, one per request. -/
  | locationsReceived (k : Nat) (results : List (List String))
  /-- The pending `await pingTasks(reduce_tasks)` of activation `k` resolves, the
  workers having answered `axiosGet`. -/
  | reducePolled (k : Nat) (axiosGet : Nat → String → String)

/-- One step of the master.  `submit` runs the handler of `POST /map-reduce`,
hence `runMapReduce` up to its first `await`; the other events resume activation
`k` of `runMapReduce` and run it up to its next `await`.  An event that does not
match the suspension point of activation `k`, or key lists that are not one per
request, cannot occur and leave the state as it is. -/
def step (cfg : Config) (filenames : List String) (M : Master) : Event → Master
  | .submit mapperFileName reducerFileName =>
    let M1 := { M with status := cfg.STATES.MAP_PHASE }
    let M2 := createMapTasks cfg filenames M1 mapperFileName
    { M2 with
      runs := M2.runs ++ [{ pc := .mapPoll M2.map_tasks, reducerFileName := reducerFileName }] }
  | .mapPolled k axiosGet =>
    match M.runs[k]? with
    | some { pc := .mapPoll polled, reducerFileName := r } =>
      if pingTasks cfg.STATES polled axiosGet = true then
        { M with
          status := cfg.STATES.REDUCE_PHASE
          runs := M.runs.set k { pc := .fileLocations M.map_tasks, reducerFileName := r } }
      else { M with runs := M.runs.set k { pc := .mapWait, reducerFileName := r } }
    | _ => M
  | .timerFired k =>
    match M.runs[k]? with
    | some { pc := .mapWait, reducerFileName := r } =>
      { M with runs := M.runs.set k { pc := .mapPoll M.map_tasks, reducerFileName := r } }
    | some { pc := .reduceWait, reducerFileName := r } =>
      { M with runs := M.runs.set k { pc := .reducePoll M.reduce_tasks, reducerFileName := r } }
    | _ => M
  | .locationsReceived k results =>
    match M.runs[k]? with
    | some { pc := .fileLocations asked, reducerFileName := r } =>
      if results.length = asked.length then
        let M1 := createReduceTasks cfg M results r
        { M1 with
          runs := M1.runs.set k { pc := .reducePoll M1.reduce_tasks, reducerFileName := r } }
      else M
    | _ => M
  | .reducePolled k axiosGet =>
    match M.runs[k]? with
    | some { pc := .reducePoll polled, reducerFileName := r } =>
      if pingTasks cfg.STATES polled axiosGet = true then
        { M with
          status := cfg.STATES.REDUCE_COMPLETED
          runs := M.runs.set k { pc := .finished, reducerFileName := r } }
      else { M with runs := M.runs.set k { pc := .reduceWait, reducerFileName := r } }
    | _ => M

/-- The state after a sequence of events. -/
def run (cfg : Config) (filenames : List String) (M : Master) (events : List Event) : Master :=
  events.foldl (step cfg filenames) M

/-- Whether an event is a job submission. -/
def Event.isSubmit : Event → Bool
  | .submit _ _ => true
  | _ => false

/-- The number of job submissions among the events. -/
def submissions (events : List Event) : Nat :=
  (events.filter Event.isSubmit).length

/-- The mapper file names of the job submissions among the events, in order. -/
def submittedMappers : List Event → List String
  | [] => []
  | .submit mapperFileName _ :: events => mapperFileName :: submittedMappers events
  | _ :: events => submittedMappers events

/-- The states of a master that has received at most one job submission
(`submitted` tells whether it has received one): no activation of
`runMapReduce` and an idle status before the submission, and afterwards one
activation whose suspension point fixes the status and the reduce tasks. -/
def SingleJobInv (cfg : Config) (submitted : Bool) (M : Master) : Prop :=
  if submitted = true then
    ∃ pc r, M.runs = [{ pc := pc, reducerFileName := r }] ∧
      M.status = pc.status cfg.STATES ∧
      (pc.createdReduceTasks = false → M.reduce_tasks = []) ∧
      (pc.createdReduceTasks = true →
        ∃ results, M.reduce_tasks = (List.range cfg.NUM_REDUCERS).map (reduceTask cfg results r))
  else M.runs = [] ∧ M.status = cfg.STATES.WORKER_IDLE ∧ M.reduce_tasks = []

/-- The reduce tasks of a master are those of the activations that have run the
loop of `createReduceTasks`, `NUM_REDUCERS` per activation: `specs` lists, in
creation order, the key matrix and reducer file name of each. -/
def ReduceTasksOf (cfg : Config) (M : Master) (specs : List (List (List String) × String)) :
    Prop :=
  specs.length = M.runs.countP (fun r => r.pc.createdReduceTasks) ∧
    M.reduce_tasks =
      (specs.map (fun spec =>
        (List.range cfg.NUM_REDUCERS).map (reduceTask cfg spec.1 spec.2))).flatten

/-- A complete run of one job on `sampleConfig` with two input shards: the
submission, a successful map poll, the key lists of the two map workers, and a
successful reduce poll. -/
def sampleJob : List Event :=
  [.submit "mapper.js" "reducer.js",
    .mapPolled 0 (fun _ _ => "MAP_COMPLETED"),
    .locationsReceived 0 [["worker-3001-0", "worker-3001-1"], ["worker-3002-0", "worker-3002-1"]],
    .reducePolled 0 (fun _ _ => "REDUCE_COMPLETED")]

/-- A second job submitted to the same master after `sampleJob`, run to its end:
its map poll and its key lists cover the four map tasks that exist by then, its
reduce poll the four reduce tasks. -/
def sampleSecondJob : List Event :=
  [.submit "mapper.js" "reducer.js",
    .mapPolled 1 (fun _ _ => "MAP_COMPLETED"),
    .locationsReceived 1
      [["worker-3001-0", "worker-3001-1"], ["worker-3002-0", "worker-3002-1"],
        ["worker-3001-0", "worker-3001-1"], ["worker-3002-0", "worker-3002-1"]],
    .reducePolled 1 (fun _ _ => "REDUCE_COMPLETED")]

/-- The position of a status token in the order IDLE, MAP_PHASE, REDUCE_PHASE,
REDUCE_COMPLETED; `none` for any other text. -/
def phaseRank (S : States) (status : String) : Option Nat :=
  if status = S.WORKER_IDLE then some 0
  else if status = S.MAP_PHASE then some 1
  else if status = S.REDUCE_PHASE then some 2
  else if status = S.REDUCE_COMPLETED then some 3
  else none

/-- A small configuration used to evaluate the definitions: two reducers, two
map-worker addresses. -/
def sampleConfig : Config where
  NUM_REDUCERS := 2
  REDUCE_PORTS := [4001, 4002]
  MAP_PORTS := [3001, 3002]
  BASE_URL := "http://localhost"
  FILE_PARTS_DIR := "file_parts"
  STATES := specStates

/-! ## worker.js -/

/-- The store key of bucket `i` written by the worker listening on `PORT`: the
template literal `worker-${PORT}-${i}`. -/
def redisKey (PORT i : Nat) : String :=
  "worker-" ++ toString PORT ++ "-" ++ toString i

/-- The closure state of `makeWorker`: the three status variables, the list
`partitionLocations`, and the `SET` commands `redisClient` has issued whose reply
has not arrived yet (oldest first).  `B` is the type of serialized texts. -/
structure Worker (B : Type) where
  status : String
  map_status : String
  reduce_status : String
  partitionLocations : List String
  pending : List (String × B)
  deriving Repr, DecidableEq

/-- The state right after `makeWorker(PORT)`. -/
def makeWorker (S : States) (B : Type) : Worker B where
  status := S.WORKER_IDLE
  map_status := S.WORKER_IDLE
  reduce_status := S.WORKER_IDLE
  partitionLocations := []
  pending := []

/-- What a map execution calls that is not defined in `worker.js`: the user's
`map` function loaded from `mapperFilePath`, `partitionKeyValueList` of
`utils.js`, and `JSON.stringify` on a bucket.  Each returns `none` when the call
throws. -/
structure MapEnv (B V : Type) where
  map : String → String → Option (List (String × V))
  partitionKeyValueList : List (String × V) → Nat → Option (List (List (String × V)))
  stringify : List (String × V) → Option B

/-- The body of the `try` block of `saveToRedis` up to the end of its loop, from
index `i` on.  `.error` is an exception thrown inside the loop, carrying the
state reached before it.  `redisClient.set` returns a promise at once, which
the loop does not await: the command joins the pending ones. -/
def saveToRedisLoop {B V : Type} (stringify : List (String × V) → Option B) (PORT : Nat) :
    Nat → List (List (String × V)) → Worker B → Except (Worker B) (Worker B)
  | _, [], W => .ok W
  | i, bucket :: rest, W =>
    match stringify bucket with
    | none => .error W
    | some text =>
      saveToRedisLoop stringify PORT (i + 1) rest
        { W with
          pending := W.pending ++ [(redisKey PORT i, text)]
          partitionLocations := W.partitionLocations ++ [redisKey PORT i] }

/-- The function `saveToRedis(partitions)`. -/
def saveToRedis {B V : Type} (S : States) (stringify : List (String × V) → Option B)
    (PORT : Nat) (partitions : List (List (String × V))) (W : Worker B) : Worker B :=
  match saveToRedisLoop stringify PORT 0 partitions W with
  | .ok W1 => { W1 with map_status := S.MAP_COMPLETED, status := S.WORKER_IDLE }
  | .error W1 => { W1 with map_status := S.MAP_ERROR }

/-- The map branch of the `POST /task` handler up to its response: both status
variables are set and `execMap` starts `fs.readFile`. -/
def acceptMapTask {B : Type} (S : States) (W : Worker B) : Worker B :=
  { W with status := S.WORKER_RUNNING, map_status := S.MAP_RUNNING }

/-- The callback `execMap` passes to `fs.readFile`, run with the outcome `data`
of the read (`none` for a read error).  The result is `none` when the callback
throws: the calls to `map` and `partitionKeyValueList` are outside any `try`. -/
def readFileCallback {B V : Type} (S : States) (env : MapEnv B V) (PORT : Nat)
    (inputFilePath : String) (numReducers : Nat) (W : Worker B) (data : Option String) :
    Option (Worker B) :=
  match data with
  | none => some { W with map_status := S.MAP_ERROR }
  | some data =>
    match env.map (splitPop inputFilePath) data with
    | none => none
    | some result =>
      match env.partitionKeyValueList result numReducers with
      | none => none
      | some partitions => some (saveToRedis S env.stringify PORT partitions W)

/-- A map task from acceptance to the end of the `fs.readFile` callback:
the function `execMap(inputFilePath, mapperFilePath, numReducers)` as called by
the `POST /task` handler. -/
def execMap {B V : Type} (S : States) (env : MapEnv B V) (PORT : Nat)
    (inputFilePath : String) (numReducers : Nat) (W : Worker B) (data : Option String) :
    Option (Worker B) :=
  readFileCallback S env PORT inputFilePath numReducers (acceptMapTask S W) data

/-- The shared store after `SET key text`. -/
def redisSet {B : Type} (redis : List (String × B)) (key : String) (text : B) :
    List (String × B) :=
  (key, text) :: redis.filter (fun entry => entry.1 ≠ key)

/-- The reply of `GET key`: `none` is the `null` of a missing key. -/
def redisGet {B : Type} (redis : List (String × B)) (key : String) : Option B :=
  (redis.find? (fun entry => entry.1 = key)).map Prod.snd

/-- The reply to the oldest pending `SET` arrives.  With `ok` the entry becomes
visible in the store; without, the command failed and its promise rejects.  No
code of the worker is attached to that promise, so no variable of the worker
changes either way. -/
def redisReply {B : Type} (ok : Bool) (W : Worker B) (redis : List (String × B)) :
    Worker B × List (String × B) :=
  match W.pending with
  | [] => (W, redis)
  | (key, text) :: rest =>
    ({ W with pending := rest }, if ok then redisSet redis key text else redis)

/-- A plain object created by `{}`, as the list of its own properties in the
order JavaScript enumerates and serializes them: first the names that are array
indices, by ascending value, then the other names in the order they were
created. -/
abbrev JsObject (A : Type) := List (String × A)

/-- The value of a property name that is an array index: the canonical decimal
numeral of a number below `2^32 - 1`. -/
def arrayIndex? (name : String) : Option Nat :=
  if toString (decimalValue name.data) = name ∧ decimalValue name.data < 4294967295 then
    some (decimalValue name.data)
  else none

/-- A new property whose name is the array index `n`, placed before the first
property that is not an array index below `n`. -/
def insertIndexed {A : Type} (n : Nat) (entry : String × A) : JsObject A → JsObject A
  | [] => [entry]
  | e :: rest =>
    match arrayIndex? e.1 with
    | some m => if m < n then e :: insertIndexed n entry rest else entry :: e :: rest
    | none => entry :: e :: rest

/-- The assignment `output[key] = value` on an object created by `{}`.  The name
`__proto__` is an accessor inherited from `Object.prototype`: assigning to it
runs that setter and creates no own property.  Any other name is updated in
place when the object has it; otherwise the property is created, among the
array indices when the name is one and at the end when it is not. -/
def JsObject.assign {A : Type} (output : JsObject A) (key : String) (value : A) : JsObject A :=
  if key = "__proto__" then output
  else if output.any (fun entry => entry.1 = key) then
    output.map (fun entry => if entry.1 = key then (key, value) else entry)
  else
    match arrayIndex? key with
    | some n => insertIndexed n (key, value) output
    | none => output ++ [(key, value)]

/-- What a reduce execution calls that is not defined in `worker.js`: the
user's `reducer` loaded from `reducerFilePath`, `sortAndGroup` of `utils.js`,
and `JSON.parse` on a store entry (`none` when the text is not a list of
pairs). -/
structure ReduceEnv (B V A : Type) where
  reducer : String → List V → A
  sortAndGroup : List (String × V) → List (String × List V)
  parse : B → Option (List (String × V))

/-- Step 1 of `execReduce`: the pairs of every listed store entry pushed onto
`data` in order; `none` when an entry is missing or does not parse (the
iteration over it throws). -/
def readIntermediate {B V : Type} (parse : B → Option (List (String × V)))
    (redis : List (String × B)) : List (Option String) → List (String × V) →
    Option (List (String × V))
  | [], data => some data
  | redisKey :: rest, data =>
    match redisKey.bind (redisGet redis) |>.bind parse with
    | none => none
    | some kvlist => readIntermediate parse redis rest (data ++ kvlist)

/-- Step 3 of `execReduce`: the loop over the groups, giving the calls made to
`reducer` in order and the object `output`. -/
def reduceLoop {V A : Type} (reducer : String → List V → A) :
    List (String × List V) → List (String × List V) × JsObject A →
    List (String × List V) × JsObject A
  | [], acc => acc
  | (key, values) :: rest, (calls, output) =>
    reduceLoop reducer rest (calls ++ [(key, values)], output.assign key (reducer key values))

/-- What one run of `execReduce` computes before it writes the file. -/
structure Reduced (V A : Type) where
  /-- The argument of `sortAndGroup`. -/
  data : List (String × V)
  /-- The calls of `reducer`, in order. -/
  calls : List (String × List V)
  /-- The object passed to `JSON.stringify`, whose own properties are the
  entries of the output file, in this order. -/
  output : JsObject A

/-- The function `execReduce(fileLocations, reducerFilePath, outputFilePath)` up
to the call of `fs.writeFile`; `none` when reading the store throws. -/
def execReduce {B V A : Type} (env : ReduceEnv B V A) (redis : List (String × B))
    (fileLocations : List (Option String)) : Option (Reduced V A) :=
  match readIntermediate env.parse redis fileLocations [] with
  | none => none
  | some data =>
    let groupedkv := env.sortAndGroup data
    let (calls, output) := reduceLoop env.reducer groupedkv ([], [])
    some { data := data, calls := calls, output := output }

/-- The reduce branch of the `POST /task` handler up to its response: both
status variables are set and `execReduce` starts. -/
def acceptReduceTask {B : Type} (S : States) (W : Worker B) : Worker B :=
  { W with status := S.WORKER_RUNNING, reduce_status := S.REDUCE_RUNNING }

/-- The callback `execReduce` passes to `fs.writeFile`. -/
def writeFileCallback {B : Type} (S : States) (W : Worker B) (err : Bool) : Worker B :=
  if err then { W with reduce_status := S.REDUCE_ERROR }
  else { W with reduce_status := S.REDUCE_COMPLETED, status := S.WORKER_IDLE }

/-- Stable insertion of a pair into a list sorted by key; keys are compared as
lists of characters, lexicographically. -/
def insertByKey {V : Type} (p : String × V) : List (String × V) → List (String × V)
  | [] => [p]
  | q :: rest => if q.1.data < p.1.data then q :: insertByKey p rest else p :: q :: rest

/-- Stable sort of the pairs by key. -/
def sortByKey {V : Type} : List (String × V) → List (String × V)
  | [] => []
  | p :: rest => insertByKey p (sortByKey rest)

/-- Merge of consecutive pairs with equal keys into one group per run. -/
def groupRuns {V : Type} : List (String × V) → List (String × List V)
  | [] => []
  | (k, v) :: rest =>
    match groupRuns rest with
    | (k', vs) :: groups => if k = k' then (k, v :: vs) :: groups else (k, [v]) :: (k', vs) :: groups
    | [] => [(k, [v])]

/-- Modelled from the spec: `sortAndGroup` of `utils.js`, which is not among the
sources.  Section 4.3: a total-order sort over keys, then a merge of consecutive
equal-key runs into (key, ordered list of values). -/
def sortAndGroup {V : Type} (pairs : List (String × V)) : List (String × List V) :=
  groupRuns (sortByKey pairs)

/-- Modelled from the spec: `partitionKeyValueList` of `utils.js`, which is not
among the sources.  Section 4.3: bucket `hash(key) mod R`, relative order kept
within a bucket, exactly `R` lists.  The hash is a parameter. -/
def partitionKeyValueList {V : Type} (hash : String → Nat) (records : List (String × V))
    (R : Nat) : List (List (String × V)) :=
  (List.range R).map (fun j => records.filter (fun kv => hash kv.1 % R = j))

/-- The blank-separated words of a text, with `word` the reversed word read so
far. -/
def wordsAux : List Char → List Char → List String
  | [], word => [String.mk word.reverse]
  | c :: cs, word =>
    if c = ' ' then String.mk word.reverse :: wordsAux cs [] else wordsAux cs (c :: word)

/-- A map environment used to evaluate the definitions: one pair `(word, 1)`
per blank-separated word of the content, buckets by key length, and a
serialization that is the list itself. -/
def sampleMapEnv : MapEnv (List (String × Nat)) Nat where
  map := fun _ content => some ((wordsAux content.data []).map (fun w => (w, 1)))
  partitionKeyValueList := fun records R => some (partitionKeyValueList String.length records R)
  stringify := some

/-- A reduce environment used to evaluate the definitions: the reducer sums the
values, grouping is `sortAndGroup`, parsing inverts `sampleMapEnv.stringify`. -/
def sampleReduceEnv : ReduceEnv (List (String × Nat)) Nat Nat where
  reducer := fun _ values => values.sum
  sortAndGroup := sortAndGroup
  parse := some

/-! ## Properties -/

/-- A loop that pushes `f i` for every `i` of `l` appends `l.map f`. -/
theorem foldl_push {α β : Type} (f : α → β) (l : List α) (init : List β) :
    l.foldl (fun acc i => acc ++ [f i]) init = init ++ l.map f := by
  induction l generalizing init with
  | nil => simp
  | cons a l ih => simp [ih]

/-- The loop of `pingTasks` answers `true` exactly when every status is one of
the two COMPLETED tokens. -/
theorem pingLoop_eq_true_iff (S : States) (res : List String) :
    pingLoop S res = true ↔ ∀ s ∈ res, s = S.MAP_COMPLETED ∨ s = S.REDUCE_COMPLETED := by
  induction res with
  | nil => simp [pingLoop]
  | cons s rest ih =>
    by_cases h : s ≠ S.MAP_COMPLETED ∧ s ≠ S.REDUCE_COMPLETED
    · simp only [pingLoop, if_pos h, List.mem_cons, forall_eq_or_imp]
      constructor
      · intro hf; cases hf
      · rintro ⟨h1 | h1, _⟩
        · exact absurd h1 h.1
        · exact absurd h1 h.2
    · simp only [pingLoop, if_neg h, List.mem_cons, forall_eq_or_imp, ih]
      constructor
      · intro hr
        refine ⟨?_, hr⟩
        by_contra hc
        exact h ⟨fun h1 => hc (Or.inl h1), fun h2 => hc (Or.inr h2)⟩
      · exact fun hr => hr.2

/-- The statuses a poll receives are the answers to the calls for its tasks, one
per task and in task order. -/
theorem mem_pingResponses (axiosGet : Nat → String → String) (s : String) :
    ∀ (tasks : List Task) (start : Nat),
    s ∈ pingResponses axiosGet start tasks ↔
      ∃ i task, tasks[i]? = some task ∧ axiosGet (start + i) task.statusURL = s := by
  intro tasks
  induction tasks with
  | nil => intro start; simp [pingResponses]
  | cons t rest ih =>
    intro start
    simp only [pingResponses, List.mem_cons, ih]
    constructor
    · rintro (h | ⟨i, task, hi, hs⟩)
      · exact ⟨0, t, by simp, by simpa using h.symm⟩
      · refine ⟨i + 1, task, by simpa using hi, ?_⟩
        rw [← hs]
        congr 1
        omega
    · rintro ⟨i, task, hi, hs⟩
      cases i with
      | zero =>
        simp only [List.getElem?_cons_zero, Option.some.injEq] at hi
        subst hi
        exact Or.inl (by simpa using hs.symm)
      | succ i =>
        refine Or.inr ⟨i, task, by simpa using hi, ?_⟩
        rw [← hs]
        congr 1
        omega

/-- The function `pingTasks` answers `true` exactly when every task's status is
one of the two COMPLETED tokens. -/
theorem pingTasks_eq_true_iff (S : States) (tasks : List Task)
    (axiosGet : Nat → String → String) :
    pingTasks S tasks axiosGet = true ↔
      ∀ i task, tasks[i]? = some task →
        axiosGet i task.statusURL = S.MAP_COMPLETED ∨
          axiosGet i task.statusURL = S.REDUCE_COMPLETED := by
  unfold pingTasks
  rw [pingLoop_eq_true_iff]
  constructor
  · intro h i task hi
    exact h _ ((mem_pingResponses axiosGet _ tasks 0).2 ⟨i, task, hi, by simp⟩)
  · intro h s hs
    obtain ⟨i, task, hi, rfl⟩ := (mem_pingResponses axiosGet s tasks 0).1 hs
    simpa using h i task hi

/-- C1.  For the tasks of one phase, answered with values the status variable
of that phase can hold, `pingTasks` returns `true` if and only if every task's
status is the COMPLETED token of the phase.  It is a total function, so nothing
is raised, and it returns `false` whenever some task reports an IDLE, RUNNING or
ERROR token. -/
theorem pingTasks_true_iff_all_completed (S : States) (phase : Phase) (tasks : List Task)
    (axiosGet : Nat → String → String) (hd : S.WorkerTokensDistinct)
    (hfrom : ∀ i task, tasks[i]? = some task →
      axiosGet i task.statusURL ∈ phase.statusTokens S) :
    (pingTasks S tasks axiosGet = true ↔
        ∀ i task, tasks[i]? = some task → axiosGet i task.statusURL = phase.completed S) ∧
      ((∃ i task, tasks[i]? = some task ∧
          axiosGet i task.statusURL ∈ [S.WORKER_IDLE, S.WORKER_RUNNING, S.MAP_RUNNING,
            S.MAP_ERROR, S.REDUCE_RUNNING, S.REDUCE_ERROR]) →
        pingTasks S tasks axiosGet = false) := by
  have hiff := pingTasks_eq_true_iff S tasks axiosGet
  constructor
  · rw [hiff]
    constructor
    · intro hall i task hi
      have hm := hfrom i task hi
      cases phase with
      | map =>
        simp only [Phase.statusTokens, List.mem_cons, List.mem_singleton, List.not_mem_nil,
          or_false] at hm
        rcases hall i task hi with h | h
        · exact h
        · rcases hm with hm | hm | hm | hm
          · exact absurd (hm.symm.trans h) (hd _ (by simp)).2
          · exact absurd (hm.symm.trans h) (hd _ (by simp)).2
          · exact hm
          · exact absurd (hm.symm.trans h) (hd _ (by simp)).2
      | reduce =>
        simp only [Phase.statusTokens, List.mem_cons, List.mem_singleton, List.not_mem_nil,
          or_false] at hm
        rcases hall i task hi with h | h
        · rcases hm with hm | hm | hm | hm
          · exact absurd (hm.symm.trans h) (hd _ (by simp)).1
          · exact absurd (hm.symm.trans h) (hd _ (by simp)).1
          · exact hm
          · exact absurd (hm.symm.trans h) (hd _ (by simp)).1
        · exact h
    · intro hall i task hi
      cases phase with
      | map => exact Or.inl (hall i task hi)
      | reduce => exact Or.inr (hall i task hi)
  · rintro ⟨i, task, hi, hmem⟩
    have hne := hd _ hmem
    cases hp : pingTasks S tasks axiosGet with
    | false => rfl
    | true =>
      rcases hiff.1 hp i task hi with h | h
      · exact absurd h hne.1
      · exact absurd h hne.2

/-- C1, witness: a poll of the two map tasks of `sampleConfig` in which the
first worker answers `MAP_COMPLETED` and the second `MAP_ERROR` returns
`false`. -/
theorem pingTasks_true_iff_all_completed_witness :
    pingTasks specStates
        (createMapTasks sampleConfig ["part-0.txt", "part-1.txt"] (makeMaster sampleConfig)
          "mapper.js").map_tasks
        (fun i _ => if i = 0 then "MAP_COMPLETED" else "MAP_ERROR") = false :=
  (pingTasks_true_iff_all_completed specStates .map
      (createMapTasks sampleConfig ["part-0.txt", "part-1.txt"] (makeMaster sampleConfig)
        "mapper.js").map_tasks
      (fun i _ => if i = 0 then "MAP_COMPLETED" else "MAP_ERROR") (by decide)
      (by
        intro i task _
        by_cases h : i = 0
        · simp only [h, if_true]; decide
        · simp only [h, if_false]; decide)).2
    ⟨1, mapTask sampleConfig ["part-0.txt", "part-1.txt"] "mapper.js" 1, by decide, by decide⟩

/-- The loop of `getAllFileLocations` returns the answers as they are, in task
order. -/
theorem getAllFileLocations_eq (results : List (List String)) :
    getAllFileLocations results = results := by
  unfold getAllFileLocations
  have := foldl_push (fun keys : List String => keys) results []
  simpa using this

/-- The inner loop of `createReduceTasks` reads column `j` of the matrix. -/
theorem filesForReducer_eq (fileLocations : List (List String)) (j : Nat) :
    filesForReducer fileLocations j = fileLocations.map (fun row => row[j]?) := by
  unfold filesForReducer
  rw [foldl_push]
  simp only [List.nil_append]
  apply List.ext_getElem?
  intro n
  by_cases hn : n < fileLocations.length
  · simp [List.getElem?_map, List.getElem?_range, hn, List.getElem?_eq_getElem hn]
  · have hle := not_lt.1 hn
    simp [List.getElem?_map, List.getElem?_range, hn, List.getElem?_eq_none hle, hle]

/-- The outer loop of `createReduceTasks` appends one task per partition. -/
theorem createReduceTasks_reduce_tasks (cfg : Config) (M : Master) (results : List (List String))
    (reducerFileName : String) :
    (createReduceTasks cfg M results reducerFileName).reduce_tasks =
      M.reduce_tasks ++
        (List.range cfg.NUM_REDUCERS).map (reduceTask cfg results reducerFileName) := by
  simp only [createReduceTasks, foldl_push, getAllFileLocations_eq]

/-- The loop of `createMapTasks` appends one task per input shard. -/
theorem createMapTasks_map_tasks (cfg : Config) (filenames : List String) (M : Master)
    (mapperFileName : String) :
    (createMapTasks cfg filenames M mapperFileName).map_tasks =
      M.map_tasks ++ (List.range filenames.length).map (mapTask cfg filenames mapperFileName) := by
  simp only [createMapTasks, foldl_push]

/-- C2.  When every row of the matrix returned by `getAllFileLocations` has at
least `NUM_REDUCERS` entries, `createReduceTasks` appends exactly
`NUM_REDUCERS` tasks to `reduce_tasks`; the `j`-th of them carries column `j` of
the matrix in mapper order, every entry of which is a key of the matrix, and
writes `output-j.json`.  It is bound to the address of port `REDUCE_PORTS[j]`
whenever `j` is below the number of configured reduce ports (past their end the
address carries the text `undefined`).  Its key list has one entry per row,
that is one per map task. -/
theorem createReduceTasks_columns (cfg : Config) (M : Master) (results : List (List String))
    (reducerFileName : String)
    (hlen : results.length = M.map_tasks.length)
    (hrows : ∀ row ∈ getAllFileLocations results, cfg.NUM_REDUCERS ≤ row.length) :
    ∃ added : List Task,
      (createReduceTasks cfg M results reducerFileName).reduce_tasks = M.reduce_tasks ++ added ∧
      added.length = cfg.NUM_REDUCERS ∧
      ∀ j, j < cfg.NUM_REDUCERS →
        ∃ (keys : List String) (port : String),
          keys.length = M.map_tasks.length ∧
          keys.map some = (getAllFileLocations results).map (fun row => row[j]?) ∧
          ((hp : j < cfg.REDUCE_PORTS.length) → port = toString cfg.REDUCE_PORTS[j]) ∧
          (cfg.REDUCE_PORTS.length ≤ j → port = "undefined") ∧
          added[j]? = some
            { workerPayload :=
                .reduce (keys.map some) ("./public/" ++ reducerFileName)
                  ("./public/output-" ++ toString j ++ ".json")
              workerURL := cfg.BASE_URL ++ ":" ++ port ++ "/task"
              statusURL := cfg.BASE_URL ++ ":" ++ port ++ "/reduce-status"
              fileLocationsURL := none } := by
  rw [getAllFileLocations_eq] at hrows ⊢
  refine ⟨(List.range cfg.NUM_REDUCERS).map (reduceTask cfg results reducerFileName),
    createReduceTasks_reduce_tasks cfg M results reducerFileName, by simp, ?_⟩
  intro j hj
  have hcol : ∀ row ∈ results, row[j]? = some (row.getD j "") := by
    intro row hrow
    have hlt : j < row.length := lt_of_lt_of_le hj (hrows row hrow)
    simp [List.getD, List.getElem?_eq_getElem hlt]
  have hmap : (results.map (fun row => row.getD j "")).map some =
      results.map (fun row => row[j]?) := by
    rw [List.map_map]
    exact List.map_congr_left (fun row hrow => (hcol row hrow).symm)
  refine ⟨results.map (fun row => row.getD j ""), renderIndexed cfg.REDUCE_PORTS[j]?,
    by simp [hlen], hmap, ?_, ?_, ?_⟩
  · intro hp
    simp [renderIndexed, List.getElem?_eq_getElem hp]
  · intro hp
    simp [renderIndexed, List.getElem?_eq_none hp]
  · rw [List.getElem?_map, List.getElem?_range hj]
    simp only [Option.map_some', reduceTask, filesForReducer_eq, hmap]

/-- C2, witness: two map workers that each report two keys, two reducers on
ports 4001 and 4002. -/
theorem createReduceTasks_columns_witness :
    ∃ added : List Task,
      (createReduceTasks sampleConfig
          (createMapTasks sampleConfig ["part-0.txt", "part-1.txt"] (makeMaster sampleConfig)
            "mapper.js")
          [["worker-3001-0", "worker-3001-1"], ["worker-3002-0", "worker-3002-1"]]
          "reducer.js").reduce_tasks = [] ++ added ∧
      added.length = 2 ∧
      ∀ j, j < 2 →
        ∃ (keys : List String) (port : String),
          keys.length = 2 ∧
          keys.map some =
            (getAllFileLocations
              [["worker-3001-0", "worker-3001-1"], ["worker-3002-0", "worker-3002-1"]]).map
              (fun row => row[j]?) ∧
          ((hp : j < [4001, 4002].length) → port = toString [4001, 4002][j]) ∧
          ([4001, 4002].length ≤ j → port = "undefined") ∧
          added[j]? = some
            { workerPayload :=
                .reduce (keys.map some) ("./public/" ++ "reducer.js")
                  ("./public/output-" ++ toString j ++ ".json")
              workerURL := "http://localhost" ++ ":" ++ port ++ "/task"
              statusURL := "http://localhost" ++ ":" ++ port ++ "/reduce-status"
              fileLocationsURL := none } :=
  createReduceTasks_columns sampleConfig
    (createMapTasks sampleConfig ["part-0.txt", "part-1.txt"] (makeMaster sampleConfig)
      "mapper.js")
    [["worker-3001-0", "worker-3001-1"], ["worker-3002-0", "worker-3002-1"]] "reducer.js"
    (by decide) (by decide)

/-- C6, as amended.  `createMapTasks` is total: it never fails and always adds
one task per input shard.  Task `i` is bound to shard `filenames[i]`; it is bound
to worker address `MAP_PORTS[i]` when `i` is below the number of configured
map-worker addresses, and otherwise its three URLs carry the text `undefined`
in place of a port. -/
theorem createMapTasks_binds_by_position (cfg : Config) (filenames : List String) (M : Master)
    (mapperFileName : String) :
    ∃ added : List Task,
      (createMapTasks cfg filenames M mapperFileName).map_tasks = M.map_tasks ++ added ∧
      added.length = filenames.length ∧
      ∀ i (hi : i < filenames.length),
        ∃ port : String,
          ((hp : i < cfg.MAP_PORTS.length) → port = toString cfg.MAP_PORTS[i]) ∧
          (cfg.MAP_PORTS.length ≤ i → port = "undefined") ∧
          added[i]? = some
            { workerPayload :=
                .map ("./" ++ cfg.FILE_PARTS_DIR ++ "/" ++ filenames[i])
                  ("./public/" ++ mapperFileName) cfg.NUM_REDUCERS
              workerURL := cfg.BASE_URL ++ ":" ++ port ++ "/task"
              statusURL := cfg.BASE_URL ++ ":" ++ port ++ "/map-status"
              fileLocationsURL := some (cfg.BASE_URL ++ ":" ++ port ++ "/redis-locations") } := by
  refine ⟨(List.range filenames.length).map (mapTask cfg filenames mapperFileName),
    createMapTasks_map_tasks cfg filenames M mapperFileName, by simp, ?_⟩
  intro i hi
  refine ⟨renderIndexed cfg.MAP_PORTS[i]?, ?_, ?_, ?_⟩
  · intro hp
    simp [renderIndexed, List.getElem?_eq_getElem hp]
  · intro hp
    simp [renderIndexed, List.getElem?_eq_none hp]
  · rw [List.getElem?_map, List.getElem?_range hi]
    simp only [Option.map_some', mapTask, List.getElem?_eq_getElem hi, renderText]

/-- C6, counterexample.  With two configured map-worker addresses and three
input shards `createMapTasks` does not fail: it returns three tasks, the third
bound to the address `http://localhost:undefined`, which is none of the
configured ones. -/
theorem createMapTasks_beyond_ports_not_failing :
    sampleConfig.MAP_PORTS.length < ["part-0.txt", "part-1.txt", "part-2.txt"].length ∧
      (createMapTasks sampleConfig ["part-0.txt", "part-1.txt", "part-2.txt"]
          (makeMaster sampleConfig) "mapper.js").map_tasks.map Task.workerURL =
        ["http://localhost:3001/task", "http://localhost:3002/task",
          "http://localhost:undefined/task"] := by
  decide

/-- Each decimal digit character reads back as its digit and is neither `/` nor
`-`. -/
theorem digitChar_spec : ∀ d, d < 10 →
    digitValue (Nat.digitChar d) = d ∧ Nat.digitChar d ≠ '/' ∧ Nat.digitChar d ≠ '-' := by
  decide

/-- The digits `Nat.toDigitsCore` puts in front of its accumulator, given enough
fuel: they read back as the number, and none is `/` or `-`. -/
theorem toDigitsCore_spec (fuel : Nat) : ∀ n acc, n < fuel →
    ∃ ds, Nat.toDigitsCore 10 fuel n acc = ds ++ acc ∧ decimalValue ds = n ∧
      ∀ c ∈ ds, c ≠ '/' ∧ c ≠ '-' := by
  induction fuel with
  | zero => intro n acc h; omega
  | succ fuel ih =>
    intro n acc hn
    have hd := digitChar_spec (n % 10) (Nat.mod_lt _ (by decide))
    by_cases h0 : n / 10 = 0
    · refine ⟨[Nat.digitChar (n % 10)], ?_, ?_, ?_⟩
      · simp [Nat.toDigitsCore, h0]
      · simp only [decimalValue, List.foldl, hd.1]
        omega
      · intro c hc
        simp only [List.mem_singleton] at hc
        subst hc
        exact hd.2
    · have hlt : n / 10 < fuel := by omega
      obtain ⟨ds, hds, hval, hch⟩ := ih (n / 10) (Nat.digitChar (n % 10) :: acc) hlt
      refine ⟨ds ++ [Nat.digitChar (n % 10)], ?_, ?_, ?_⟩
      · simp [Nat.toDigitsCore, h0, hds]
      · unfold decimalValue at hval ⊢
        rw [List.foldl_append, hval]
        simp only [List.foldl, hd.1]
        omega
      · intro c hc
        rcases List.mem_append.1 hc with h | h
        · exact hch c h
        · simp only [List.mem_singleton] at h
          subst h
          exact hd.2

/-- The decimal rendering of a number reads back as the number. -/
theorem decimalValue_toString (n : Nat) : decimalValue (toString n).data = n := by
  obtain ⟨ds, hds, hval, -⟩ := toDigitsCore_spec (n + 1) n [] (Nat.lt_succ_self n)
  show decimalValue (Nat.repr n).data = n
  simp only [Nat.repr, Nat.toDigits, List.asString, hds, List.append_nil, hval]

/-- No character of the decimal rendering of a number is `/` or `-`. -/
theorem toString_chars (n : Nat) : ∀ c ∈ (toString n).data, c ≠ '/' ∧ c ≠ '-' := by
  obtain ⟨ds, hds, -, hch⟩ := toDigitsCore_spec (n + 1) n [] (Nat.lt_succ_self n)
  show ∀ c ∈ (Nat.repr n).data, c ≠ '/' ∧ c ≠ '-'
  simpa only [Nat.repr, Nat.toDigits, List.asString, hds, List.append_nil] using hch

/-- Decimal rendering is injective. -/
theorem toString_injective {n m : Nat} (h : toString n = toString m) : n = m := by
  have := congrArg (fun s : String => decimalValue s.data) h
  simpa only [decimalValue_toString] using this

/-- Two lists that agree after being split at a separator occurring in neither
left part have equal left parts and equal right parts. -/
theorem split_at_separator {a : Char} : ∀ (l₁ l₂ r₁ r₂ : List Char),
    a ∉ l₁ → a ∉ l₂ → l₁ ++ a :: r₁ = l₂ ++ a :: r₂ → l₁ = l₂ ∧ r₁ = r₂
  | [], [], _, _, _, _, h => by simpa using h
  | [], c :: l₂, _, _, _, h₂, h => by
    simp only [List.nil_append, List.cons_append, List.cons.injEq] at h
    exact absurd h.1 (fun hc => h₂ (by simp [hc]))
  | c :: l₁, [], _, _, h₁, _, h => by
    simp only [List.nil_append, List.cons_append, List.cons.injEq] at h
    exact absurd h.1 (fun hc => h₁ (by simp [hc]))
  | c :: l₁, d :: l₂, r₁, r₂, h₁, h₂, h => by
    simp only [List.cons_append, List.cons.injEq] at h
    have := split_at_separator l₁ l₂ r₁ r₂ (fun hc => h₁ (List.mem_cons_of_mem _ hc))
      (fun hc => h₂ (List.mem_cons_of_mem _ hc)) h.2
    exact ⟨by rw [h.1, this.1], this.2⟩

/-- The store key determines the port and the bucket index. -/
theorem redisKey_injective {P P' i i' : Nat} (h : redisKey P i = redisKey P' i') :
    P = P' ∧ i = i' := by
  have hd := congrArg String.data h
  simp only [redisKey, String.data_append, List.append_assoc] at hd
  have hd' : (toString P).data ++ '-' :: (toString i).data =
      (toString P').data ++ '-' :: (toString i').data := by
    have := List.append_cancel_left hd
    simpa using this
  have hP : '-' ∉ (toString P).data := fun hc => (toString_chars P _ hc).2 rfl
  have hP' : '-' ∉ (toString P').data := fun hc => (toString_chars P' _ hc).2 rfl
  obtain ⟨h1, h2⟩ := split_at_separator _ _ _ _ hP hP' hd'
  exact ⟨toString_injective (String.ext h1), toString_injective (String.ext h2)⟩

/-- What the loop of `saveToRedis` has done when it ends or throws: it has
recorded the keys of the first `texts.length` buckets from index `i` on, and
issued one write per such bucket, under that key and with that bucket's
serialization.  It ends normally exactly when that covers every bucket. -/
theorem saveToRedisLoop_spec {B V : Type} (stringify : List (String × V) → Option B)
    (PORT : Nat) : ∀ (partitions : List (List (String × V))) (i : Nat) (W : Worker B),
    ∃ (texts : List B) (W' : Worker B),
      texts.length ≤ partitions.length ∧
      texts.map some = (partitions.take texts.length).map stringify ∧
      (saveToRedisLoop stringify PORT i partitions W = .ok W' ∧
          texts.length = partitions.length ∨
        saveToRedisLoop stringify PORT i partitions W = .error W' ∧
          ∃ bucket, partitions[texts.length]? = some bucket ∧ stringify bucket = none) ∧
      W'.partitionLocations =
        W.partitionLocations ++ (List.range texts.length).map (fun d => redisKey PORT (i + d)) ∧
      W'.pending =
        W.pending ++
          List.zip ((List.range texts.length).map (fun d => redisKey PORT (i + d))) texts ∧
      W'.status = W.status ∧ W'.map_status = W.map_status ∧
      W'.reduce_status = W.reduce_status := by
  intro partitions
  induction partitions with
  | nil =>
    intro i W
    exact ⟨[], W, by simp, by simp, Or.inl ⟨rfl, rfl⟩, by simp, by simp, rfl, rfl, rfl⟩
  | cons bucket rest ih =>
    intro i W
    cases hs : stringify bucket with
    | none =>
      refine ⟨[], W, by simp, by simp, Or.inr ⟨?_, bucket, by simp, hs⟩, by simp, by simp,
        rfl, rfl, rfl⟩
      simp [saveToRedisLoop, hs]
    | some text =>
      obtain ⟨texts, W', hle, hmap, hres, hloc, hpend, h1, h2, h3⟩ :=
        ih (i + 1)
          { W with
            pending := W.pending ++ [(redisKey PORT i, text)]
            partitionLocations := W.partitionLocations ++ [redisKey PORT i] }
      have hshift : (List.range (texts.length + 1)).map (fun d => redisKey PORT (i + d)) =
          redisKey PORT i ::
            (List.range texts.length).map (fun d => redisKey PORT (i + 1 + d)) := by
        rw [List.range_succ_eq_map, List.map_cons, List.map_map]
        simp only [Nat.add_zero, List.cons.injEq, true_and]
        apply List.map_congr_left
        intro d _
        simp only [Function.comp, Nat.succ_eq_add_one]
        congr 1
        omega
      refine ⟨text :: texts, W', by simpa using hle, ?_, ?_, ?_, ?_, h1, h2, h3⟩
      · simp [hs, hmap]
      · rcases hres with ⟨hok, hlen⟩ | ⟨herr, b, hb, hbs⟩
        · exact Or.inl ⟨by simp [saveToRedisLoop, hs, hok], by simp [hlen]⟩
        · exact Or.inr ⟨by simp [saveToRedisLoop, hs, herr], b, by simpa using hb, hbs⟩
      · rw [hloc, List.length_cons, hshift]
        simp
      · rw [hpend, List.length_cons, hshift]
        simp

/-- C9.  The key `saveToRedis` builds determines the pair (port, bucket index).
One call of `saveToRedis` records, after the keys already in
`partitionLocations`, the keys of buckets `0`, `1`, ... in that order; these
keys are pairwise distinct; the writes it issues pair each of them with the
serialization of the bucket of the same index; and when every bucket serializes
there is one key per bucket. -/
theorem redisKey_unique_per_worker_and_bucket {B V : Type} (S : States)
    (stringify : List (String × V) → Option B) (PORT : Nat)
    (partitions : List (List (String × V))) (W : Worker B) :
    (∀ P P' i i' : Nat, redisKey P i = redisKey P' i' → P = P' ∧ i = i') ∧
      ∃ texts : List B,
        texts.length ≤ partitions.length ∧
        ((∀ bucket ∈ partitions, (stringify bucket).isSome = true) →
          texts.length = partitions.length) ∧
        texts.map some = (partitions.take texts.length).map stringify ∧
        (saveToRedis S stringify PORT partitions W).partitionLocations =
          W.partitionLocations ++ (List.range texts.length).map (redisKey PORT) ∧
        ((List.range texts.length).map (redisKey PORT)).Nodup ∧
        (saveToRedis S stringify PORT partitions W).pending =
          W.pending ++ List.zip ((List.range texts.length).map (redisKey PORT)) texts := by
  refine ⟨fun P P' i i' h => redisKey_injective h, ?_⟩
  obtain ⟨texts, W', hle, hmap, hres, hloc, hpend, -, -, -⟩ :=
    saveToRedisLoop_spec stringify PORT partitions 0 W
  simp only [Nat.zero_add] at hloc hpend
  have hnodup : ((List.range texts.length).map (redisKey PORT)).Nodup :=
    (List.nodup_range _).map (fun i i' h => (redisKey_injective h).2)
  refine ⟨texts, hle, ?_, hmap, ?_, hnodup, ?_⟩
  · intro hall
    rcases hres with ⟨-, hlen⟩ | ⟨-, b, hb, hbs⟩
    · exact hlen
    · have := hall b (List.getElem?_mem hb)
      simp [hbs] at this
  · rcases hres with ⟨hok, -⟩ | ⟨herr, -⟩
    · simp [saveToRedis, hok, hloc]
    · simp [saveToRedis, herr, hloc]
  · rcases hres with ⟨hok, -⟩ | ⟨herr, -⟩
    · simp [saveToRedis, hok, hpend]
    · simp [saveToRedis, herr, hpend]

/-- Once a `/` has been read, what came before it does not matter. -/
theorem lastSegmentAux_append_slash (pre suf : List Char) : ∀ acc,
    lastSegmentAux (pre ++ '/' :: suf) acc = lastSegmentAux suf [] := by
  induction pre with
  | nil => intro acc; simp [lastSegmentAux]
  | cons c pre ih =>
    intro acc
    by_cases hc : c = '/'
    · simp [lastSegmentAux, hc, ih]
    · simp [lastSegmentAux, hc, ih]

/-- A text without `/` is its own last segment. -/
theorem lastSegmentAux_no_slash (suf : List Char) (h : '/' ∉ suf) : ∀ acc,
    lastSegmentAux suf acc = acc.reverse ++ suf := by
  induction suf with
  | nil => intro acc; simp [lastSegmentAux]
  | cons c suf ih =>
    intro acc
    have hc : c ≠ '/' := fun hc => h (by simp [hc])
    have hs : '/' ∉ suf := fun hs => h (List.mem_cons_of_mem _ hs)
    simp [lastSegmentAux, hc, ih hs]

/-- The file name the status handler extracts from the output path of reduce
task `j`. -/
theorem splitPop_output (j : Nat) :
    splitPop ("./public/output-" ++ toString j ++ ".json") =
      "output-" ++ toString j ++ ".json" := by
  have hsplit : ("./public/output-" ++ toString j ++ ".json").data =
      "./public".data ++ '/' :: ("output-" ++ toString j ++ ".json").data := by
    simp only [String.data_append]
    rfl
  have hno : '/' ∉ ("output-" ++ toString j ++ ".json").data := by
    simp only [String.data_append, List.mem_append, not_or]
    refine ⟨⟨by decide, fun hc => (toString_chars j _ hc).1 rfl⟩, by decide⟩
  apply String.ext
  simp only [splitPop, hsplit, lastSegmentAux_append_slash,
    lastSegmentAux_no_slash _ hno, List.reverse_nil, List.nil_append]

/-- On the reduce tasks of one job the loop of the status handler yields the
`NUM_REDUCERS` output files in partition order. -/
theorem outputFilesLoop_reduceTasks (cfg : Config) (PORT : Nat) (results : List (List String))
    (r : String) (js : List Nat) :
    outputFilesLoop cfg PORT (js.map (reduceTask cfg results r)) =
      some (js.map (fun j =>
        cfg.BASE_URL ++ ":" ++ toString PORT ++ "/" ++ ("output-" ++ toString j ++ ".json"))) := by
  induction js with
  | nil => rfl
  | cons j js ih =>
    simp only [List.map_cons, outputFilesLoop, ih, reduceTask, WorkerPayload.outputFilePath,
      splitPop_output]

/-- The ranks of the four phase tokens when these are pairwise different. -/
theorem phaseRank_tokens (S : States) (hd : S.PhasesDistinct) :
    phaseRank S S.WORKER_IDLE = some 0 ∧ phaseRank S S.MAP_PHASE = some 1 ∧
      phaseRank S S.REDUCE_PHASE = some 2 ∧ phaseRank S S.REDUCE_COMPLETED = some 3 := by
  simp only [States.PhasesDistinct, List.nodup_cons, List.mem_cons, List.mem_singleton,
    not_or, List.not_mem_nil, not_false_eq_true, List.nodup_nil, and_true] at hd
  obtain ⟨⟨h1, h2, h3⟩, ⟨h4, h5⟩, h6⟩ := hd
  refine ⟨by simp [phaseRank], ?_, ?_, ?_⟩
  · simp [phaseRank, Ne.symm h1]
  · simp [phaseRank, Ne.symm h2, Ne.symm h4]
  · simp [phaseRank, Ne.symm h3, Ne.symm h5, Ne.symm h6]

/-- An event that is not a submission leaves a master without any activation
unchanged. -/
theorem step_no_runs (cfg : Config) (filenames : List String) (M : Master) (e : Event)
    (hruns : M.runs = []) (he : e.isSubmit = false) : step cfg filenames M e = M := by
  cases e with
  | submit m r => simp [Event.isSubmit] at he
  | mapPolled k axiosGet => simp [step, hruns]
  | timerFired k => simp [step, hruns]
  | locationsReceived k results => simp [step, hruns]
  | reducePolled k axiosGet => simp [step, hruns]

/-- Before the submission there is no activation. -/
theorem singleJobInv_false (cfg : Config) (M : Master) (h : SingleJobInv cfg false M) :
    M.runs = [] ∧ M.status = cfg.STATES.WORKER_IDLE ∧ M.reduce_tasks = [] := by
  simpa [SingleJobInv] using h

/-- Unfolding of the invariant after the submission. -/
theorem singleJobInv_true (cfg : Config) (M : Master) (h : SingleJobInv cfg true M) :
    ∃ pc r, M.runs = [{ pc := pc, reducerFileName := r }] ∧
      M.status = pc.status cfg.STATES ∧
      (pc.createdReduceTasks = false → M.reduce_tasks = []) ∧
      (pc.createdReduceTasks = true →
        ∃ results, M.reduce_tasks =
          (List.range cfg.NUM_REDUCERS).map (reduceTask cfg results r)) := by
  simpa [SingleJobInv] using h

/-- A freshly created master satisfies the invariant. -/
theorem makeMaster_inv (cfg : Config) : SingleJobInv cfg false (makeMaster cfg) := by
  simp [SingleJobInv, makeMaster]

/-- A submission to a master that has not received one starts the single
activation. -/
theorem step_submit_inv (cfg : Config) (filenames : List String) (M : Master)
    (m r : String) (h : SingleJobInv cfg false M) :
    SingleJobInv cfg true (step cfg filenames M (.submit m r)) ∧
      M.status = cfg.STATES.WORKER_IDLE ∧
      (step cfg filenames M (.submit m r)).status = cfg.STATES.MAP_PHASE := by
  obtain ⟨hruns, hst, hred⟩ := singleJobInv_false cfg M h
  refine ⟨?_, hst, rfl⟩
  simp [SingleJobInv, step, createMapTasks, hruns, hred, Pc.status, Pc.createdReduceTasks]

/-- The rank of the status an activation has assigned, by suspension point. -/
theorem phaseRank_pc (S : States) (hd : S.PhasesDistinct) (pc : Pc) :
    phaseRank S (pc.status S) =
      some (match pc with
        | .mapPoll _ => 1
        | .mapWait => 1
        | .fileLocations _ => 2
        | .reducePoll _ => 2
        | .reduceWait => 2
        | .finished => 3) := by
  obtain ⟨-, h1, h2, h3⟩ := phaseRank_tokens S hd
  cases pc <;> assumption

/-- An event that is not a submission keeps the invariant of a master running
its single job, and does not move the status backwards. -/
theorem step_poll_inv (cfg : Config) (filenames : List String) (M : Master) (e : Event)
    (hd : cfg.STATES.PhasesDistinct) (h : SingleJobInv cfg true M) (he : e.isSubmit = false) :
    SingleJobInv cfg true (step cfg filenames M e) ∧
      ∃ a b, phaseRank cfg.STATES M.status = some a ∧
        phaseRank cfg.STATES (step cfg filenames M e).status = some b ∧ a ≤ b := by
  obtain ⟨pc, r, hruns, hst, hnone, hsome⟩ := singleJobInv_true cfg M h
  have hrank := phaseRank_pc cfg.STATES hd
  have hstay : step cfg filenames M e = M →
      SingleJobInv cfg true (step cfg filenames M e) ∧
        ∃ a b, phaseRank cfg.STATES M.status = some a ∧
          phaseRank cfg.STATES (step cfg filenames M e).status = some b ∧ a ≤ b := by
    intro hs
    rw [hs, hst]
    exact ⟨h, _, _, hrank pc, hrank pc, le_refl _⟩
  have hmove : ∀ (pc' : Pc) (a b : Nat),
      (step cfg filenames M e).runs = [{ pc := pc', reducerFileName := r }] →
      (step cfg filenames M e).status = pc'.status cfg.STATES →
      (pc'.createdReduceTasks = false → (step cfg filenames M e).reduce_tasks = []) →
      (pc'.createdReduceTasks = true →
        ∃ results, (step cfg filenames M e).reduce_tasks =
          (List.range cfg.NUM_REDUCERS).map (reduceTask cfg results r)) →
      phaseRank cfg.STATES (pc.status cfg.STATES) = some a →
      phaseRank cfg.STATES (pc'.status cfg.STATES) = some b → a ≤ b →
      SingleJobInv cfg true (step cfg filenames M e) ∧
        ∃ a b, phaseRank cfg.STATES M.status = some a ∧
          phaseRank cfg.STATES (step cfg filenames M e).status = some b ∧ a ≤ b := by
    intro pc' a b hr hs' hn' hc' ha hb hle
    refine ⟨?_, a, b, by rw [hst]; exact ha, by rw [hs']; exact hb, hle⟩
    simp only [SingleJobInv, if_true]
    exact ⟨pc', r, hr, hs', hn', hc'⟩
  cases e with
  | submit m r' => simp [Event.isSubmit] at he
  | mapPolled k axiosGet =>
    rcases k with _ | k
    · cases pc with
      | mapPoll polled =>
        by_cases hc : pingTasks cfg.STATES polled axiosGet = true
        · exact hmove (.fileLocations M.map_tasks) 1 2 (by simp [step, hruns, hc])
            (by simp [step, hruns, hc, Pc.status])
            (fun _ => by simpa [step, hruns, hc] using hnone rfl)
            (by simp [Pc.createdReduceTasks]) (hrank _) (hrank _) (by decide)
        · exact hmove .mapWait 1 1 (by simp [step, hruns, hc])
            (by simpa [step, hruns, hc] using hst)
            (fun _ => by simpa [step, hruns, hc] using hnone rfl)
            (by simp [Pc.createdReduceTasks]) (hrank _) (hrank _) (by decide)
      | _ => exact hstay (by simp [step, hruns])
    · exact hstay (by simp [step, hruns])
  | timerFired k =>
    rcases k with _ | k
    · cases pc with
      | mapWait =>
        exact hmove (.mapPoll M.map_tasks) 1 1 (by simp [step, hruns])
          (by simpa [step, hruns] using hst)
          (fun _ => by simpa [step, hruns] using hnone rfl)
          (by simp [Pc.createdReduceTasks]) (hrank _) (hrank _) (by decide)
      | reduceWait =>
        exact hmove (.reducePoll M.reduce_tasks) 2 2 (by simp [step, hruns])
          (by simpa [step, hruns] using hst)
          (by simp [Pc.createdReduceTasks])
          (fun _ => by simpa [step, hruns] using hsome rfl) (hrank _) (hrank _) (by decide)
      | _ => exact hstay (by simp [step, hruns])
    · exact hstay (by simp [step, hruns])
  | locationsReceived k results =>
    rcases k with _ | k
    · cases pc with
      | fileLocations asked =>
        by_cases hc : results.length = asked.length
        · exact hmove (.reducePoll (createReduceTasks cfg M results r).reduce_tasks) 2 2
            (by simp [step, hruns, hc, createReduceTasks])
            (by simpa [step, hruns, hc, createReduceTasks] using hst)
            (by simp [Pc.createdReduceTasks])
            (fun _ => ⟨results, by
              simp [step, hruns, hc, createReduceTasks_reduce_tasks, hnone rfl]⟩)
            (hrank _) (hrank _) (by decide)
        · exact hstay (by simp [step, hruns, hc])
      | _ => exact hstay (by simp [step, hruns])
    · exact hstay (by simp [step, hruns])
  | reducePolled k axiosGet =>
    rcases k with _ | k
    · cases pc with
      | reducePoll polled =>
        by_cases hc : pingTasks cfg.STATES polled axiosGet = true
        · exact hmove .finished 2 3 (by simp [step, hruns, hc])
            (by simp [step, hruns, hc, Pc.status])
            (by simp [Pc.createdReduceTasks])
            (fun _ => by simpa [step, hruns, hc] using hsome rfl)
            (hrank _) (hrank _) (by decide)
        · exact hmove .reduceWait 2 2 (by simp [step, hruns, hc])
            (by simpa [step, hruns, hc] using hst)
            (by simp [Pc.createdReduceTasks])
            (fun _ => by simpa [step, hruns, hc] using hsome rfl)
            (hrank _) (hrank _) (by decide)
      | _ => exact hstay (by simp [step, hruns])
    · exact hstay (by simp [step, hruns])
/-- The count of submissions of a trace, one event at a time. -/
theorem submissions_cons (e : Event) (events : List Event) :
    submissions (e :: events) = (if e.isSubmit then 1 else 0) + submissions events := by
  unfold submissions
  cases h : e.isSubmit <;> simp [List.filter_cons, h, Nat.add_comm]

/-- The count of submissions of a trace extended by one event. -/
theorem submissions_append_singleton (events : List Event) (e : Event) :
    submissions (events ++ [e]) = submissions events + (if e.isSubmit then 1 else 0) := by
  unfold submissions
  cases h : e.isSubmit <;> simp [List.filter_append, List.filter_cons, h]

/-- Events without a submission keep the invariant after the submission. -/
theorem run_inv_submitted (cfg : Config) (filenames : List String)
    (hd : cfg.STATES.PhasesDistinct) : ∀ (events : List Event) (M : Master),
    SingleJobInv cfg true M → submissions events = 0 →
    SingleJobInv cfg true (run cfg filenames M events) := by
  intro events
  induction events with
  | nil => intro M h _; exact h
  | cons e events ih =>
    intro M h hs
    rw [submissions_cons] at hs
    have he : e.isSubmit = false := by
      cases hb : e.isSubmit with
      | false => rfl
      | true => simp [hb] at hs
    have hrest : submissions events = 0 := by omega
    exact ih _ (step_poll_inv cfg filenames M e hd h he).1 hrest

/-- A trace with at most one submission, run on a master that has not received
one, keeps the invariant; whether the submission has happened is read off the
count. -/
theorem run_inv (cfg : Config) (filenames : List String) (hd : cfg.STATES.PhasesDistinct) :
    ∀ (events : List Event) (M : Master),
    SingleJobInv cfg false M → submissions events ≤ 1 →
    SingleJobInv cfg (decide (submissions events = 1)) (run cfg filenames M events) := by
  intro events
  induction events with
  | nil => intro M h _; simpa [submissions, run] using h
  | cons e events ih =>
    intro M h hs
    rw [submissions_cons] at hs ⊢
    cases hb : e.isSubmit with
    | false =>
      simp only [hb, Bool.false_eq_true, if_false, Nat.zero_add] at hs ⊢
      have hstep : step cfg filenames M e = M :=
        step_no_runs cfg filenames M e (singleJobInv_false cfg M h).1 hb
      simp only [run, List.foldl_cons, hstep]
      exact ih M h hs
    | true =>
      simp only [hb, if_true] at hs ⊢
      have hrest : submissions events = 0 := by omega
      cases e with
      | submit m r =>
        have hsub := (step_submit_inv cfg filenames M m r h).1
        have := run_inv_submitted cfg filenames hd events _ hsub hrest
        simpa [hrest, run] using this
      | mapPolled k axiosGet => simp [Event.isSubmit] at hb
      | timerFired k => simp [Event.isSubmit] at hb
      | locationsReceived k results => simp [Event.isSubmit] at hb
      | reducePolled k axiosGet => simp [Event.isSubmit] at hb

/-- C3.  In every state a freshly created master reaches through a trace with at
most one job submission, the status query answers with an empty list of output
files whenever the status is not `REDUCE_COMPLETED`, and with exactly
`NUM_REDUCERS` output files, `output-0.json`, `output-1.json`, ... in partition
order, whenever the status is `REDUCE_COMPLETED`. -/
theorem status_query_output_files (cfg : Config) (PORT : Nat) (filenames : List String)
    (events : List Event) (hd : cfg.STATES.PhasesDistinct) (hone : submissions events ≤ 1) :
    ((run cfg filenames (makeMaster cfg) events).status ≠ cfg.STATES.REDUCE_COMPLETED →
        statusHandler cfg PORT (run cfg filenames (makeMaster cfg) events) =
          some ((run cfg filenames (makeMaster cfg) events).status, [])) ∧
      ((run cfg filenames (makeMaster cfg) events).status = cfg.STATES.REDUCE_COMPLETED →
        statusHandler cfg PORT (run cfg filenames (makeMaster cfg) events) =
          some (cfg.STATES.REDUCE_COMPLETED,
            (List.range cfg.NUM_REDUCERS).map (fun j =>
              cfg.BASE_URL ++ ":" ++ toString PORT ++ "/" ++
                ("output-" ++ toString j ++ ".json")))) := by
  have hinv := run_inv cfg filenames hd events (makeMaster cfg) (makeMaster_inv cfg) hone
  generalize run cfg filenames (makeMaster cfg) events = M at hinv ⊢
  have hdist := hd
  simp only [States.PhasesDistinct, List.nodup_cons, List.mem_cons, List.mem_singleton,
    not_or, List.not_mem_nil, not_false_eq_true, List.nodup_nil, and_true] at hdist
  obtain ⟨⟨-, -, h3⟩, ⟨-, h5⟩, h6⟩ := hdist
  refine ⟨fun hne => by simp [statusHandler, hne], fun hrc => ?_⟩
  cases hb : decide (submissions events = 1) with
  | false =>
    rw [hb] at hinv
    have := (singleJobInv_false cfg M hinv).2.1
    exact absurd (this.symm.trans hrc) h3
  | true =>
    rw [hb] at hinv
    obtain ⟨pc, r, -, hst, -, hsome⟩ := singleJobInv_true cfg M hinv
    cases pc with
    | mapPoll polled => exact absurd (hst.symm.trans hrc) h5
    | mapWait => exact absurd (hst.symm.trans hrc) h5
    | fileLocations asked => exact absurd (hst.symm.trans hrc) h6
    | reducePoll polled => exact absurd (hst.symm.trans hrc) h6
    | reduceWait => exact absurd (hst.symm.trans hrc) h6
    | finished =>
      obtain ⟨results, hred⟩ := hsome rfl
      simp [statusHandler, hrc, hred, outputFilesLoop_reduceTasks]

/-- C3, witness: the complete run of one job with two reducers ends in
`REDUCE_COMPLETED`, where the status query lists the two output files. -/
theorem status_query_output_files_witness :
    (run sampleConfig ["part-0.txt", "part-1.txt"] (makeMaster sampleConfig) sampleJob).status =
        sampleConfig.STATES.REDUCE_COMPLETED ∧
      statusHandler sampleConfig 3000
          (run sampleConfig ["part-0.txt", "part-1.txt"] (makeMaster sampleConfig) sampleJob) =
        some (sampleConfig.STATES.REDUCE_COMPLETED,
          (List.range sampleConfig.NUM_REDUCERS).map (fun j =>
            sampleConfig.BASE_URL ++ ":" ++ toString 3000 ++ "/" ++
              ("output-" ++ toString j ++ ".json"))) :=
  ⟨by decide,
    (status_query_output_files sampleConfig 3000 ["part-0.txt", "part-1.txt"] sampleJob
      (by decide) (by decide)).2 (by decide)⟩

/-- C4, as amended.  Within the run of one job on a freshly created master the
status never moves backwards: for every trace with at most one submission and
every event that ends it, the status before and after the event are phase
tokens, and the one after is equal or later in the order IDLE, MAP_PHASE,
REDUCE_PHASE, REDUCE_COMPLETED. -/
theorem phase_monotone_single_job (cfg : Config) (filenames : List String)
    (events : List Event) (e : Event) (hd : cfg.STATES.PhasesDistinct)
    (hone : submissions (events ++ [e]) ≤ 1) :
    ∃ a b,
      phaseRank cfg.STATES (run cfg filenames (makeMaster cfg) events).status = some a ∧
      phaseRank cfg.STATES
          (step cfg filenames (run cfg filenames (makeMaster cfg) events) e).status = some b ∧
      a ≤ b := by
  rw [submissions_append_singleton] at hone
  have hle : submissions events ≤ 1 := by omega
  have hinv := run_inv cfg filenames hd events (makeMaster cfg) (makeMaster_inv cfg) hle
  generalize run cfg filenames (makeMaster cfg) events = M at hinv ⊢
  obtain ⟨h0, h1, -, -⟩ := phaseRank_tokens cfg.STATES hd
  cases hb : decide (submissions events = 1) with
  | false =>
    rw [hb] at hinv
    obtain ⟨hruns, hst, -⟩ := singleJobInv_false cfg M hinv
    cases he : e.isSubmit with
    | false =>
      rw [step_no_runs cfg filenames M e hruns he, hst]
      exact ⟨0, 0, h0, h0, le_refl _⟩
    | true =>
      cases e with
      | submit m r =>
        obtain ⟨-, hbefore, hafter⟩ := step_submit_inv cfg filenames M m r hinv
        rw [hbefore, hafter]
        exact ⟨0, 1, h0, h1, by decide⟩
      | mapPolled k axiosGet => simp [Event.isSubmit] at he
      | timerFired k => simp [Event.isSubmit] at he
      | locationsReceived k results => simp [Event.isSubmit] at he
      | reducePolled k axiosGet => simp [Event.isSubmit] at he
  | true =>
    rw [hb] at hinv
    have hcount : submissions events = 1 := of_decide_eq_true hb
    have he : e.isSubmit = false := by
      cases hs : e.isSubmit with
      | false => rfl
      | true => simp [hs, hcount] at hone
    exact (step_poll_inv cfg filenames M e hd hinv he).2

/-- C4, witness: the last event of the complete run of one job moves the status
from `REDUCE_PHASE` to `REDUCE_COMPLETED`. -/
theorem phase_monotone_single_job_witness :
    ∃ a b,
      phaseRank sampleConfig.STATES
          (run sampleConfig ["part-0.txt", "part-1.txt"] (makeMaster sampleConfig)
            (sampleJob.take 3)).status = some a ∧
      phaseRank sampleConfig.STATES
          (step sampleConfig ["part-0.txt", "part-1.txt"]
            (run sampleConfig ["part-0.txt", "part-1.txt"] (makeMaster sampleConfig)
              (sampleJob.take 3))
            (.reducePolled 0 (fun _ _ => "REDUCE_COMPLETED"))).status = some b ∧
      a ≤ b :=
  phase_monotone_single_job sampleConfig ["part-0.txt", "part-1.txt"] (sampleJob.take 3)
    (.reducePolled 0 (fun _ _ => "REDUCE_COMPLETED")) (by decide) (by decide)

/-- C4, counterexample.  A job submission is a transition the master takes in
any state: submitted after a job has completed, it moves the status from
`REDUCE_COMPLETED` (rank 3) back to `MAP_PHASE` (rank 1). -/
theorem submit_after_completion_regresses :
    phaseRank sampleConfig.STATES
        (run sampleConfig ["part-0.txt", "part-1.txt"] (makeMaster sampleConfig)
          sampleJob).status = some 3 ∧
      phaseRank sampleConfig.STATES
        (step sampleConfig ["part-0.txt", "part-1.txt"]
          (run sampleConfig ["part-0.txt", "part-1.txt"] (makeMaster sampleConfig) sampleJob)
          (.submit "mapper.js" "reducer.js")).status = some 1 := by
  decide


/-- Replacing an element of a list changes a count by what the old and the new
element contribute. -/
theorem countP_set_add {α : Type} (p : α → Bool) (x y : α) : ∀ (l : List α) (k : Nat),
    l[k]? = some y →
    (l.set k x).countP p + (if p y then 1 else 0) = l.countP p + (if p x then 1 else 0) := by
  intro l
  induction l with
  | nil => intro k h; simp at h
  | cons a l ih =>
    intro k h
    cases k with
    | zero =>
      simp only [List.getElem?_cons_zero, Option.some.injEq] at h
      subst h
      simp only [List.set_cons_zero, List.countP_cons]
      omega
    | succ k =>
      simp only [List.getElem?_cons_succ] at h
      have := ih k h
      simp only [List.set_cons_succ, List.countP_cons]
      omega

/-- Replacing an activation by one that has created its reduce tasks exactly
when the old one had keeps the number of such activations. -/
theorem countP_set_same (runs : List Run) (k : Nat) (old new : Run)
    (hk : runs[k]? = some old)
    (hsame : new.pc.createdReduceTasks = old.pc.createdReduceTasks) :
    (runs.set k new).countP (fun r => r.pc.createdReduceTasks) =
      runs.countP (fun r => r.pc.createdReduceTasks) := by
  have := countP_set_add (fun r : Run => r.pc.createdReduceTasks) new old runs k hk
  simp only [hsame] at this
  omega

/-- The loop of the status handler over two lists of tasks one after the
other. -/
theorem outputFilesLoop_append (cfg : Config) (PORT : Nat) (fs gs : List String) :
    ∀ (ts us : List Task), outputFilesLoop cfg PORT ts = some fs →
    outputFilesLoop cfg PORT us = some gs →
    outputFilesLoop cfg PORT (ts ++ us) = some (fs ++ gs) := by
  intro ts
  induction ts generalizing fs with
  | nil =>
    intro us h1 h2
    simp only [outputFilesLoop, Option.some.injEq] at h1
    subst h1
    simpa using h2
  | cons t ts ih =>
    intro us h1 h2
    simp only [outputFilesLoop] at h1
    split at h1
    · rename_i p more hp hmore
      simp only [Option.some.injEq] at h1
      subst h1
      have hrec := ih more us hmore h2
      rw [List.cons_append]
      simp only [outputFilesLoop, hp, hrec]
      rfl
    · cases h1

/-- On the reduce tasks of several jobs the loop of the status handler yields
the `NUM_REDUCERS` output files of each job, job after job. -/
theorem outputFilesLoop_specs (cfg : Config) (PORT : Nat)
    (specs : List (List (List String) × String)) :
    outputFilesLoop cfg PORT
        (specs.map (fun spec =>
          (List.range cfg.NUM_REDUCERS).map (reduceTask cfg spec.1 spec.2))).flatten =
      some (specs.map (fun _ =>
        (List.range cfg.NUM_REDUCERS).map (fun j =>
          cfg.BASE_URL ++ ":" ++ toString PORT ++ "/" ++
            ("output-" ++ toString j ++ ".json")))).flatten := by
  induction specs with
  | nil => rfl
  | cons spec specs ih =>
    simp only [List.map_cons, List.flatten_cons]
    exact outputFilesLoop_append cfg PORT _ _ _ _
      (outputFilesLoop_reduceTasks cfg PORT spec.1 spec.2 _) ih

/-- Every step keeps the reduce tasks those of the activations that have created
theirs: only the receipt of the key lists adds tasks, `NUM_REDUCERS` of them,
for the activation that received them. -/
theorem step_reduceTasksOf (cfg : Config) (filenames : List String) (M : Master) (e : Event)
    (h : ∃ specs, ReduceTasksOf cfg M specs) :
    ∃ specs, ReduceTasksOf cfg (step cfg filenames M e) specs := by
  obtain ⟨specs, hlen, hred⟩ := h
  have hkeep : ∀ M' : Master, M'.reduce_tasks = M.reduce_tasks →
      M'.runs.countP (fun r => r.pc.createdReduceTasks) =
        M.runs.countP (fun r => r.pc.createdReduceTasks) →
      ∃ specs, ReduceTasksOf cfg M' specs :=
    fun M' h1 h2 => ⟨specs, by rw [h2]; exact hlen, by rw [h1]; exact hred⟩
  cases e with
  | submit m r =>
    apply hkeep
    · simp [step, createMapTasks]
    · simp [step, createMapTasks, List.countP_append, Pc.createdReduceTasks]
  | mapPolled k axiosGet =>
    cases hk : M.runs[k]? with
    | none => exact ⟨specs, by simpa [step, hk] using ⟨hlen, hred⟩⟩
    | some old =>
      obtain ⟨pc, r⟩ := old
      cases pc with
      | mapPoll polled =>
        by_cases hc : pingTasks cfg.STATES polled axiosGet = true
        · apply hkeep
          · simp [step, hk, hc]
          · simp only [step, hk, hc, if_true, if_false, Bool.false_eq_true]
            exact countP_set_same M.runs k _ _ hk rfl
        · apply hkeep
          · simp [step, hk, hc]
          · simp only [step, hk, hc, if_true, if_false, Bool.false_eq_true]
            exact countP_set_same M.runs k _ _ hk rfl
      | _ => exact ⟨specs, by simpa [step, hk] using ⟨hlen, hred⟩⟩
  | timerFired k =>
    cases hk : M.runs[k]? with
    | none => exact ⟨specs, by simpa [step, hk] using ⟨hlen, hred⟩⟩
    | some old =>
      obtain ⟨pc, r⟩ := old
      cases pc with
      | mapWait =>
        apply hkeep
        · simp [step, hk]
        · simp only [step, hk, if_true, if_false, Bool.false_eq_true]
          exact countP_set_same M.runs k _ _ hk rfl
      | reduceWait =>
        apply hkeep
        · simp [step, hk]
        · simp only [step, hk, if_true, if_false, Bool.false_eq_true]
          exact countP_set_same M.runs k _ _ hk rfl
      | _ => exact ⟨specs, by simpa [step, hk] using ⟨hlen, hred⟩⟩
  | locationsReceived k results =>
    cases hk : M.runs[k]? with
    | none => exact ⟨specs, by simpa [step, hk] using ⟨hlen, hred⟩⟩
    | some old =>
      obtain ⟨pc, r⟩ := old
      cases pc with
      | fileLocations asked =>
        by_cases hc : results.length = asked.length
        · refine ⟨specs ++ [(results, r)], ?_, ?_⟩
          · have hcount := countP_set_add (fun r : Run => r.pc.createdReduceTasks)
              { pc := .reducePoll (createReduceTasks cfg M results r).reduce_tasks,
                reducerFileName := r }
              { pc := .fileLocations asked, reducerFileName := r } M.runs k hk
            simp only [Pc.createdReduceTasks, Bool.false_eq_true, if_false, if_true,
              Nat.add_zero] at hcount
            simp only [step, hk, hc, if_true, createReduceTasks, List.length_append,
              List.length_singleton, hlen]
            simpa [createReduceTasks] using hcount.symm
          · simp [step, hk, hc, createReduceTasks_reduce_tasks, hred]
        · exact ⟨specs, by simpa [step, hk, hc] using ⟨hlen, hred⟩⟩
      | _ => exact ⟨specs, by simpa [step, hk] using ⟨hlen, hred⟩⟩
  | reducePolled k axiosGet =>
    cases hk : M.runs[k]? with
    | none => exact ⟨specs, by simpa [step, hk] using ⟨hlen, hred⟩⟩
    | some old =>
      obtain ⟨pc, r⟩ := old
      cases pc with
      | reducePoll polled =>
        by_cases hc : pingTasks cfg.STATES polled axiosGet = true
        · apply hkeep
          · simp [step, hk, hc]
          · simp only [step, hk, hc, if_true, if_false, Bool.false_eq_true]
            exact countP_set_same M.runs k _ _ hk rfl
        · apply hkeep
          · simp [step, hk, hc]
          · simp only [step, hk, hc, if_true, if_false, Bool.false_eq_true]
            exact countP_set_same M.runs k _ _ hk rfl
      | _ => exact ⟨specs, by simpa [step, hk] using ⟨hlen, hred⟩⟩

/-- In every state reached from a fresh master, the reduce tasks are those of
the activations that have created theirs. -/
theorem run_reduceTasksOf (cfg : Config) (filenames : List String) :
    ∀ (events : List Event) (M : Master), (∃ specs, ReduceTasksOf cfg M specs) →
    ∃ specs, ReduceTasksOf cfg (run cfg filenames M events) specs := by
  intro events
  induction events with
  | nil => intro M h; exact h
  | cons e events ih =>
    intro M h
    exact ih _ (step_reduceTasksOf cfg filenames M e h)

/-- No step other than a submission changes `map_tasks`, and a submission appends
the tasks of the new job. -/
theorem step_map_tasks (cfg : Config) (filenames : List String) (M : Master) (e : Event) :
    (step cfg filenames M e).map_tasks =
      M.map_tasks ++
        ((submittedMappers [e]).map (fun m =>
          (List.range filenames.length).map (mapTask cfg filenames m))).flatten := by
  cases e with
  | submit m r => simp [step, createMapTasks_map_tasks, submittedMappers]
  | mapPolled k axiosGet =>
    simp only [step, submittedMappers]
    split <;> [split; skip] <;> simp
  | timerFired k =>
    simp only [step, submittedMappers]
    split <;> simp
  | locationsReceived k results =>
    simp only [step, submittedMappers]
    split <;> [split; skip] <;> simp [createReduceTasks]
  | reducePolled k axiosGet =>
    simp only [step, submittedMappers]
    split <;> [split; skip] <;> simp

/-- The mapper names of a trace, one event at a time. -/
theorem submittedMappers_cons (e : Event) (events : List Event) :
    submittedMappers (e :: events) = submittedMappers [e] ++ submittedMappers events := by
  cases e <;> simp [submittedMappers]

/-- In every state, `map_tasks` holds the tasks of every job submitted so far,
job after job. -/
theorem run_map_tasks (cfg : Config) (filenames : List String) :
    ∀ (events : List Event) (M : Master),
    (run cfg filenames M events).map_tasks =
      M.map_tasks ++
        ((submittedMappers events).map (fun m =>
          (List.range filenames.length).map (mapTask cfg filenames m))).flatten := by
  intro events
  induction events with
  | nil => intro M; simp [run, submittedMappers]
  | cons e events ih =>
    intro M
    have hrun : run cfg filenames M (e :: events) =
        run cfg filenames (step cfg filenames M e) events := rfl
    rw [hrun, ih, step_map_tasks, submittedMappers_cons e events]
    simp

/-- The state after a job submission: the status is `MAP_PHASE`, the tasks of
the new job follow the existing map tasks, and the new activation polls all of
them. -/
theorem step_submit (cfg : Config) (filenames : List String) (M : Master) (m r : String) :
    step cfg filenames M (.submit m r) =
      { status := cfg.STATES.MAP_PHASE
        map_tasks :=
          M.map_tasks ++ (List.range filenames.length).map (mapTask cfg filenames m)
        reduce_tasks := M.reduce_tasks
        runs := M.runs ++
          [{ pc := .mapPoll
              (M.map_tasks ++ (List.range filenames.length).map (mapTask cfg filenames m)),
             reducerFileName := r }] } := by
  simp [step, createMapTasks, foldl_push]

/-- C10.  Task creation only appends.  `createMapTasks` keeps the existing map
tasks as the first ones, adds one task per shard after them and touches nothing
else; `createReduceTasks` does the same to `reduce_tasks` with `NUM_REDUCERS`
new tasks.  Hence after a second submission on the same master `map_tasks`
holds the tasks of both jobs, the first job's first; the map poll of the second
job is issued for the tasks of both jobs, and so is the next poll of the first
job, and such a poll succeeds only when every task of both jobs reports a
COMPLETED token.  In every state the master reaches, whatever the number of
submissions, `map_tasks` holds the tasks of every submitted job and the status
query answers; at `REDUCE_COMPLETED` it lists the `NUM_REDUCERS` output files
once for every job that has created its reduce tasks.  After two complete jobs
with two reducers these are four files. -/
theorem task_creation_appends (cfg : Config) (filenames : List String) (PORT : Nat)
    (M : Master) (mapperFileName reducerFileName : String) (results : List (List String))
    (events : List Event) :
    ((createMapTasks cfg filenames M mapperFileName).map_tasks.take M.map_tasks.length =
          M.map_tasks ∧
        (createMapTasks cfg filenames M mapperFileName).map_tasks.length =
          M.map_tasks.length + filenames.length ∧
        (createMapTasks cfg filenames M mapperFileName).reduce_tasks = M.reduce_tasks) ∧
      ((createReduceTasks cfg M results reducerFileName).reduce_tasks.take M.reduce_tasks.length =
          M.reduce_tasks ∧
        (createReduceTasks cfg M results reducerFileName).reduce_tasks.length =
          M.reduce_tasks.length + cfg.NUM_REDUCERS ∧
        (createReduceTasks cfg M results reducerFileName).map_tasks = M.map_tasks) ∧
      (∀ mapper1 reducer1 mapper2 reducer2 : String,
        (run cfg filenames (makeMaster cfg)
            [.submit mapper1 reducer1, .submit mapper2 reducer2]).map_tasks =
          (List.range filenames.length).map (mapTask cfg filenames mapper1) ++
            (List.range filenames.length).map (mapTask cfg filenames mapper2) ∧
        (run cfg filenames (makeMaster cfg)
            [.submit mapper1 reducer1, .submit mapper2 reducer2]).runs =
          [{ pc := .mapPoll ((List.range filenames.length).map (mapTask cfg filenames mapper1)),
             reducerFileName := reducer1 },
            { pc := .mapPoll
                ((List.range filenames.length).map (mapTask cfg filenames mapper1) ++
                  (List.range filenames.length).map (mapTask cfg filenames mapper2)),
              reducerFileName := reducer2 }] ∧
        (∀ axiosGet : Nat → String → String,
          pingTasks cfg.STATES ((List.range filenames.length).map (mapTask cfg filenames mapper1))
            axiosGet = false →
          (run cfg filenames (makeMaster cfg)
              [.submit mapper1 reducer1, .submit mapper2 reducer2, .mapPolled 0 axiosGet,
                .timerFired 0]).runs =
            [{ pc := .mapPoll
                  ((List.range filenames.length).map (mapTask cfg filenames mapper1) ++
                    (List.range filenames.length).map (mapTask cfg filenames mapper2)),
                reducerFileName := reducer1 },
              { pc := .mapPoll
                  ((List.range filenames.length).map (mapTask cfg filenames mapper1) ++
                    (List.range filenames.length).map (mapTask cfg filenames mapper2)),
                reducerFileName := reducer2 }]) ∧
        (∀ axiosGet : Nat → String → String,
          pingTasks cfg.STATES
              ((List.range filenames.length).map (mapTask cfg filenames mapper1) ++
                (List.range filenames.length).map (mapTask cfg filenames mapper2)) axiosGet =
            true ↔
          ∀ i task,
            ((List.range filenames.length).map (mapTask cfg filenames mapper1) ++
              (List.range filenames.length).map (mapTask cfg filenames mapper2))[i]? =
              some task →
            axiosGet i task.statusURL = cfg.STATES.MAP_COMPLETED ∨
              axiosGet i task.statusURL = cfg.STATES.REDUCE_COMPLETED)) ∧
      ((run cfg filenames (makeMaster cfg) events).map_tasks =
          ((submittedMappers events).map (fun m =>
            (List.range filenames.length).map (mapTask cfg filenames m))).flatten ∧
        ∃ specs : List (List (List String) × String),
          ReduceTasksOf cfg (run cfg filenames (makeMaster cfg) events) specs ∧
          statusHandler cfg PORT (run cfg filenames (makeMaster cfg) events) =
            some ((run cfg filenames (makeMaster cfg) events).status,
              if (run cfg filenames (makeMaster cfg) events).status =
                  cfg.STATES.REDUCE_COMPLETED then
                (specs.map (fun _ =>
                  (List.range cfg.NUM_REDUCERS).map (fun j =>
                    cfg.BASE_URL ++ ":" ++ toString PORT ++ "/" ++
                      ("output-" ++ toString j ++ ".json")))).flatten
              else [])) ∧
      statusHandler sampleConfig 3000
          (run sampleConfig ["part-0.txt", "part-1.txt"] (makeMaster sampleConfig)
            (sampleJob ++ sampleSecondJob)) =
        some ("REDUCE_COMPLETED",
          ["http://localhost:3000/output-0.json", "http://localhost:3000/output-1.json",
            "http://localhost:3000/output-0.json", "http://localhost:3000/output-1.json"]) := by
  refine ⟨⟨?_, ?_, rfl⟩, ⟨?_, ?_, rfl⟩, ?_, ⟨?_, ?_⟩, by decide⟩
  · rw [createMapTasks_map_tasks]; simp
  · rw [createMapTasks_map_tasks]; simp
  · rw [createReduceTasks_reduce_tasks]; simp
  · rw [createReduceTasks_reduce_tasks]; simp
  · intro m1 r1 m2 r2
    refine ⟨?_, ?_, ?_, fun axiosGet => pingTasks_eq_true_iff _ _ _⟩
    · simp [run, step_submit, makeMaster]
    · simp [run, step_submit, makeMaster]
    · intro axiosGet hfail
      simp only [run, List.foldl_cons, List.foldl_nil, step_submit, makeMaster, List.nil_append]
      simp [step, hfail]
  · simpa [makeMaster] using run_map_tasks cfg filenames events (makeMaster cfg)
  · obtain ⟨specs, hspecs⟩ := run_reduceTasksOf cfg filenames events (makeMaster cfg)
      ⟨[], by simp [ReduceTasksOf, makeMaster]⟩
    refine ⟨specs, hspecs, ?_⟩
    by_cases hrc : (run cfg filenames (makeMaster cfg) events).status =
        cfg.STATES.REDUCE_COMPLETED
    · simp only [statusHandler, hrc, if_true, hspecs.2, outputFilesLoop_specs, Option.map_some']
    · simp [statusHandler, hrc]
/-- Step 1 of `execReduce` succeeds when every listed key is a text, is in the
store and parses; `data` then receives the parsed lists in listed order. -/
theorem readIntermediate_concat {B V : Type} (parse : B → Option (List (String × V)))
    (redis : List (String × B)) : ∀ (keys : List String) (lists : List (List (String × V)))
    (data : List (String × V)),
    keys.map (fun key => (redisGet redis key).bind parse) = lists.map some →
    readIntermediate parse redis (keys.map some) data = some (data ++ lists.flatten) := by
  intro keys
  induction keys with
  | nil =>
    intro lists data h
    cases lists with
    | nil => simp [readIntermediate]
    | cons l ls => simp at h
  | cons key keys ih =>
    intro lists data h
    cases lists with
    | nil => simp at h
    | cons l ls =>
      simp only [List.map_cons, List.cons.injEq] at h
      have hkey : ((some key).bind (redisGet redis)).bind parse = some l := h.1
      simp only [List.map_cons, readIntermediate, hkey, ih ls (data ++ l) h.2,
        List.flatten_cons, List.append_assoc]

/-- Creating a property among the array indices adds that entry and no
other. -/
theorem mem_insertIndexed {A : Type} (n : Nat) (entry e : String × A) :
    ∀ output : JsObject A, e ∈ insertIndexed n entry output ↔ e = entry ∨ e ∈ output := by
  intro output
  induction output with
  | nil => simp [insertIndexed]
  | cons x rest ih =>
    unfold insertIndexed
    split
    · split
      · simp only [List.mem_cons, ih]
        tauto
      · simp
    · simp

/-- Assigning to a name other than `__proto__` that the object does not have
adds that entry and no other. -/
theorem mem_assign_fresh {A : Type} (output : JsObject A) (key : String) (value : A)
    (e : String × A) (hproto : key ≠ "__proto__") (hfresh : ∀ entry ∈ output, entry.1 ≠ key) :
    e ∈ output.assign key value ↔ e ∈ output ∨ e = (key, value) := by
  have hany : output.any (fun entry => decide (entry.1 = key)) = false := by
    rw [List.any_eq_false]
    intro entry hentry
    simpa using hfresh entry hentry
  unfold JsObject.assign
  simp only [hproto, if_false, hany, Bool.false_eq_true]
  split
  · rw [mem_insertIndexed]
    tauto
  · simp

/-- Step 3 of `execReduce` on groups with pairwise different keys, none of them
`__proto__` and none already a property of `output`: the reducer is called once
per group, in order, and the object gains exactly one entry per group, the
group's key with the reducer's result. -/
theorem reduceLoop_distinct_keys {V A : Type} (reducer : String → List V → A) :
    ∀ (groups calls : List (String × List V)) (output : JsObject A),
    (groups.map Prod.fst).Nodup →
    (∀ g ∈ groups, g.1 ≠ "__proto__" ∧ ∀ entry ∈ output, entry.1 ≠ g.1) →
    (reduceLoop reducer groups (calls, output)).1 = calls ++ groups ∧
      ∀ e, e ∈ (reduceLoop reducer groups (calls, output)).2 ↔
        e ∈ output ∨ ∃ g ∈ groups, e = (g.1, reducer g.1 g.2) := by
  intro groups
  induction groups with
  | nil => intro calls output _ _; simp [reduceLoop]
  | cons g groups ih =>
    intro calls output hnd hkeys
    obtain ⟨key, values⟩ := g
    simp only [List.map_cons, List.nodup_cons] at hnd
    obtain ⟨hproto, hfresh⟩ := hkeys (key, values) (List.mem_cons_self _ _)
    have hmem := fun e => mem_assign_fresh output key (reducer key values) e hproto hfresh
    have hrest : ∀ g' ∈ groups, g'.1 ≠ "__proto__" ∧
        ∀ entry ∈ output.assign key (reducer key values), entry.1 ≠ g'.1 := by
      intro g' hg'
      refine ⟨(hkeys g' (List.mem_cons_of_mem _ hg')).1, ?_⟩
      intro entry hentry
      rcases (hmem entry).1 hentry with h | h
      · exact (hkeys g' (List.mem_cons_of_mem _ hg')).2 entry h
      · subst h
        intro heq
        exact hnd.1 (List.mem_map.2 ⟨g', hg', heq.symm⟩)
    obtain ⟨hcalls, hout⟩ := ih (calls ++ [(key, values)])
      (output.assign key (reducer key values)) hnd.2 hrest
    simp only [reduceLoop]
    refine ⟨by simp [hcalls], ?_⟩
    intro e
    rw [hout, hmem]
    simp only [List.mem_cons, exists_eq_or_imp]
    tauto

/-- C5, the code at the failing input.  The store entry `worker-3001-0` holds
the pairs `("__proto__", 1)` and `("a", 1)`.  `execReduce` hands both pairs to
grouping and calls the reducer once for `__proto__` and once for `a`, yet the
object it serializes has the single entry `a`: the assignment
`output["__proto__"] = 1` creates no property, so the key `__proto__` is
missing from the output file. -/
theorem execReduce_drops_proto_key :
    (execReduce sampleReduceEnv [("worker-3001-0", [("__proto__", 1), ("a", 1)])]
        [some "worker-3001-0"]).map (fun r => (r.data, r.calls, r.output)) =
      some ([("__proto__", 1), ("a", 1)], [("__proto__", [1]), ("a", [1])], [("a", 1)]) := by
  decide

/-- C7, the code at the failing input.  A map task on a readable shard is
accepted, its two buckets serialize, and both `SET` commands then fail.  The
status is `MAP_COMPLETED` as soon as the commands are issued and is still
`MAP_COMPLETED`, not `MAP_ERROR`, after both failures, with neither key in the
store. -/
theorem execMap_completed_although_writes_fail :
    ∃ W₁ : Worker (List (String × Nat)),
      execMap specStates sampleMapEnv 3001 "./file_parts/part-0.txt" 2
          (makeWorker specStates _) (some "a bb a") = some W₁ ∧
      W₁.pending = [("worker-3001-0", [("bb", 1)]), ("worker-3001-1", [("a", 1), ("a", 1)])] ∧
      (redisReply false (redisReply false W₁ []).1 (redisReply false W₁ []).2).1.map_status =
        specStates.MAP_COMPLETED ∧
      (redisReply false (redisReply false W₁ []).1 (redisReply false W₁ []).2).1.pending = [] ∧
      (redisReply false (redisReply false W₁ []).1 (redisReply false W₁ []).2).2 = [] := by
  refine ⟨_, rfl, ?_, ?_, ?_, ?_⟩ <;> decide

/-- C8, the code at the failing input.  Right after the `fs.readFile` callback
of a map task has run, with an empty store and no reply from the store yet, the
status is `MAP_COMPLETED` and the two produced keys are recorded, while both
writes are still pending and neither key can be read from the store. -/
theorem execMap_completed_before_writes_visible :
    ∃ W₁ : Worker (List (String × Nat)),
      execMap specStates sampleMapEnv 3001 "./file_parts/part-0.txt" 2
          (makeWorker specStates _) (some "a bb a") = some W₁ ∧
      W₁.map_status = specStates.MAP_COMPLETED ∧
      W₁.partitionLocations = ["worker-3001-0", "worker-3001-1"] ∧
      W₁.pending.map Prod.fst = ["worker-3001-0", "worker-3001-1"] ∧
      ∀ key ∈ W₁.partitionLocations,
        redisGet ([] : List (String × List (String × Nat))) key = none := by
  refine ⟨_, rfl, ?_, ?_, ?_, ?_⟩ <;> decide

/-- The variable `map_status` only ever holds one of the four tokens of the map
phase, and `reduce_status` one of the four of the reduce phase: at creation,
when a task is accepted, when a map execution ends, when a reply of the store
arrives, and when the output file has been written or has failed to. -/
theorem status_variables_hold_phase_tokens {B V : Type} (S : States) (env : MapEnv B V)
    (PORT : Nat) (inputFilePath : String) (numReducers : Nat) (W : Worker B)
    (data : Option String) (ok err : Bool) (redis : List (String × B)) :
    (makeWorker S B).map_status ∈ Phase.map.statusTokens S ∧
      (makeWorker S B).reduce_status ∈ Phase.reduce.statusTokens S ∧
      (acceptMapTask S W).map_status ∈ Phase.map.statusTokens S ∧
      (acceptReduceTask S W).reduce_status ∈ Phase.reduce.statusTokens S ∧
      (∀ W', execMap S env PORT inputFilePath numReducers W data = some W' →
        W'.map_status ∈ Phase.map.statusTokens S) ∧
      (redisReply ok W redis).1.map_status = W.map_status ∧
      (writeFileCallback S W err).reduce_status ∈ Phase.reduce.statusTokens S := by
  refine ⟨by simp [makeWorker, Phase.statusTokens], by simp [makeWorker, Phase.statusTokens],
    by simp [acceptMapTask, Phase.statusTokens], by simp [acceptReduceTask, Phase.statusTokens],
    ?_, ?_, ?_⟩
  · intro W' h
    unfold execMap readFileCallback at h
    split at h
    · simp only [Option.some.injEq] at h
      subst h
      simp [Phase.statusTokens]
    · split at h
      · cases h
      · split at h
        · cases h
        · simp only [Option.some.injEq] at h
          subst h
          unfold saveToRedis
          split <;> simp [Phase.statusTokens]
  · unfold redisReply
    split <;> rfl
  · unfold writeFileCallback
    split <;> simp [Phase.statusTokens]

end MapReduce
